import Mathlib

/-!
Verification development for the MyUiExperiment UI framework
(base `Component` data-binding engine and the `Repeater` list reconciler).

The TypeScript sources are embedded shallowly:

* Strings are Lean `String`s; the binding-token regular expression
  `/{{[a-zA-Z._0-9]+}}/g` is implemented as a left-to-right scanner over
  `List Char` (the character class contains no `}` so the greedy scan agrees
  with the regex).
* The DOM is a forest type `Dom` (`textCons` nodes carrying a `nodeValue`,
  `elemCons` nodes carrying tag, `id` attribute, other attributes and a
  child forest), encoded first-order so traversals compute by `rfl`.
* JavaScript runtime faults (member access on `null`/`undefined`) are
  modelled as `Except`-errors; a loop whose index variable can be clobbered
  (function-scoped `var`) would not terminate in general, so it takes a fuel
  argument and exhaustion is reported as `JsError.nonTermination`.
* External collaborators (`Observable`, `ObservableArray`, the `DataBinder`)
  are modelled from the spec's interface section, as noted at each site.
-/

namespace UiExp

/-- Character class of the binding token regular expression
`/{{[a-zA-Z._0-9]+}}/` from `Component.bindingRegex`. -/
def isBindingChar (c : Char) : Bool :=
  ('a' ≤ c && c ≤ 'z') || ('A' ≤ c && c ≤ 'Z') || ('0' ≤ c && c ≤ '9')
    || c = '.' || c = '_'

/-- Left-to-right global scan for `{{[a-zA-Z._0-9]+}}` tokens, the shallow
embedding of `text.match(Component.bindingRegex)`.  Each returned entry is a
whole token, braces included, in document order.  Since `}` is not in the
character class, taking the maximal run of class characters agrees with the
backtracking regex engine. -/
def scanAux : Nat → List Char → List (List Char)
  | 0, _ => []
  | _ + 1, [] => []
  | f + 1, '{' :: '{' :: rest =>
      let run := rest.takeWhile isBindingChar
      match rest.dropWhile isBindingChar with
      | '}' :: '}' :: tail =>
          if run.isEmpty then scanAux f ('{' :: rest)
          else ('{' :: '{' :: (run ++ '}' :: '}' :: [])) :: scanAux f tail
      | _ => scanAux f ('{' :: rest)
  | f + 1, _ :: rest => scanAux f rest

/-- The scan started with fuel `l.length`; every recursive step of `scanAux`
consumes at least one character, so the fuel never runs out. -/
def scanMatches (l : List Char) : List (List Char) := scanAux l.length l

/-- JS `text.replace(pat, repl)` with a plain-string pattern: replaces the
first occurrence only.  (Dollar escapes in the replacement are not modelled;
all values considered here are dollar-free.) -/
def replaceFirstL : List Char → List Char → List Char → List Char
  | [], _, _ => []
  | c :: rest, pat, repl =>
      if pat.isPrefixOf (c :: rest) then repl ++ (c :: rest).drop pat.length
      else c :: replaceFirstL rest pat repl

/-- Plain-JS-object association lookup (`obj[key]`), `none` = `undefined`. -/
def lookupA (k : String) : List (String × β) → Option β
  | [] => none
  | (k', v) :: rest => if k' = k then some v else lookupA k rest

/-- JS `name.indexOf(pat) === 0`, i.e. `pat` begins the string (structural,
over the character lists). -/
def jsStartsWith (s pat : String) : Bool := pat.toList.isPrefixOf s.toList

/-- JS `s.substr(start, len)` (negative lengths clamp to the empty string). -/
def jsSubstr (s : List Char) (start len : Nat) : List Char :=
  (s.drop start).take len

/-- Strips `{{` and `}}` from a matched token: `matches[i].substr(2,
matches[i].length - 4)`. -/
def stripBraces (m : List Char) : String :=
  String.mk (jsSubstr m 2 (m.length - 4))

/-- `Component.resolveBindingText`.  The observable environment `obs` maps a
binding path to the current `this[path].value`.  Returns `none` where the JS
code throws a `TypeError`: when the text has no token (`matches` is `null`
and `matches.length` is read), or when a referenced path is not an
observable on the component (`this[path]` is `undefined` and `.value` is
read). -/
def resolveBindingText (obs : List (String × String)) (text : String) :
    Option String :=
  let ms := scanMatches text.toList
  if ms.isEmpty then none
  else
    (ms.foldlM (fun acc m =>
      match lookupA (stripBraces m) obs with
      | none => none
      | some v => some (replaceFirstL acc m v.toList)) text.toList).map
      String.mk

/-- A DOM forest (a `childNodes` sequence), encoded first-order so that all
traversals are structurally recursive: `textCons v rest` is a text node
(`nodeType == 3`, `nodeValue = v`) followed by its later siblings, and
`elemCons tag idAttr attrs children rest` is an element (`nodeType == 1`)
with tag name, `id` attribute, remaining attributes and child forest,
followed by its later siblings. -/
inductive Dom where
  | nil
  | textCons (value : String) (rest : Dom)
  | elemCons (tag idAttr : String) (attrs : List (String × String))
      (children : Dom) (rest : Dom)
deriving DecidableEq

/-- `childNodes.length` of a forest: the number of top-level nodes. -/
def domLen : Dom → Nat
  | .nil => 0
  | .textCons _ rest => domLen rest + 1
  | .elemCons _ _ _ _ rest => domLen rest + 1

/-- `TextBindingInfo` from `Component.ts` (the `updateCallback` closure is
represented by the registry entry itself). -/
structure TextBindingInfo where
  elementBindingId : Nat
  textNodeIndex : Nat
  bindingPath : String
  bindingText : String
deriving DecidableEq

/-- JavaScript faults surfaced by the embedding. `nonTermination` stands for
a loop that never exits (only reachable through the fuel parameter of
`triggerLoop`). -/
inductive JsError where
  | typeError
  | nonTermination
  | errNoTemplate
deriving DecidableEq

/-- The element `id` that `triggerBindingUpdate` queries for a record:
`"#BindingElement" + binding.elementBindingId` (sans the selector hash). -/
def targetIdOf (b : TextBindingInfo) : String :=
  "BindingElement" ++ toString b.elementBindingId

/-- Inner loop of `Component.triggerBindingUpdate`: walks
`bindingElement.childNodes` counting only text nodes (`tni` is the running
`textNodeIndex`), and overwrites the text node at the recorded index with
the re-evaluated original template string.  A `TypeError` from
`resolveBindingText` propagates. -/
def patchChildren (obs : List (String × String)) (b : TextBindingInfo) :
    Dom → Nat → Except JsError Dom
  | .nil, _ => .ok .nil
  | .textCons v rest, tni =>
      if tni = b.textNodeIndex then
        match resolveBindingText obs b.bindingText with
        | none => .error .typeError
        | some v' => (patchChildren obs b rest (tni + 1)).map
            (fun r => .textCons v' r)
      else (patchChildren obs b rest (tni + 1)).map (fun r => .textCons v r)
  | .elemCons t i a c rest, tni =>
      (patchChildren obs b rest tni).map (fun r => .elemCons t i a c r)

/-- One step of `triggerBindingUpdate` for one record `b`:
`rootHtmlElement.querySelector("#BindingElement" + id)` (first matching
element in document pre-order, the root itself excluded) combined with the
inner text-node patch on that element.  Returns `none` when no element
matches (`querySelector` yields `null`), otherwise the patched forest
together with `bindingElement.childNodes.length` (the value left in the
shared loop variable `i` by the inner loop). -/
def applyB (obs : List (String × String)) (b : TextBindingInfo) :
    Dom → Option (Except JsError (Dom × Nat))
  | .nil => none
  | .textCons v rest =>
      (applyB obs b rest).map fun r =>
        r.map (fun p => (.textCons v p.1, p.2))
  | .elemCons t i a c rest =>
      if i = targetIdOf b then
        some ((patchChildren obs b c 0).map
          (fun c' => (.elemCons t i a c' rest, domLen c)))
      else
        match applyB obs b c with
        | some r => some (r.map (fun p => (.elemCons t i a p.1 rest, p.2)))
        | none =>
            (applyB obs b rest).map fun r =>
              r.map (fun p => (.elemCons t i a c p.1, p.2))

/-- Outer loop of `Component.triggerBindingUpdate`.  Faithful to the
compiled JavaScript: `var` is function-scoped, so the inner loop
`for (var i = 0, textNodeIndex = 0; i < bindingElement.childNodes.length;
i++)` writes the same variable `i` as the outer loop over `bindings`.
After processing record `bindings[i]` the shared `i` holds
`childNodes.length` of that record's element, the `i++` of the outer loop
runs, and the loop condition is re-checked — hence the next record index is
`childNodes.length + 1`, not `i + 1`.  The loop need not terminate, so it
consumes fuel. -/
def triggerLoop (obs : List (String × String))
    (bindings : List TextBindingInfo) :
    Nat → Nat → Dom → Except JsError Dom
  | 0, _, _ => .error .nonTermination
  | fuel + 1, i, dom =>
      match bindings[i]? with
      | none => .ok dom
      | some b =>
          match applyB obs b dom with
          | none => .error .typeError
          | some (.error e) => .error e
          | some (.ok (dom', n)) => triggerLoop obs bindings fuel (n + 1) dom'

/-- `Component.triggerBindingUpdate path` on a component whose
`textBindings` registry is `tb`, whose observables hold the values in
`obs`, and whose `rootHtmlElement` has children `dom`.  A missing registry
entry (`this.textBindings[path]` is `undefined`) faults on `.length`. -/
def triggerBindingUpdate (obs : List (String × String))
    (tb : List (String × List TextBindingInfo)) (path : String)
    (fuel : Nat) (dom : Dom) : Except JsError Dom :=
  match lookupA path tb with
  | none => .error .typeError
  | some binds => triggerLoop obs binds fuel 0 dom

/-! ### Binding discovery (`Component.processElements`) and construction

`processElements(rootElement)` first collects the direct text children of
the element, scans each for binding tokens (allocating the element a
`BindingElement<n>` id from the process-wide counter on the first match,
registering and subscribing a `TextBindingInfo` per match, then resolving
the node's text in place), then either hands the element to
`processSubComponent` (when it carries `data-component`) or recurses into
its child elements.

The recursion is driven by `processSiblings` over the first-order forest:
the per-element text mutations are computed by `scanOwnTexts` as a list of
replacement values (one entry per direct text child, in order) and applied
while walking, so every recursive call is on a structural subterm. -/

/-- Discovery state: the process-wide `Component.bindingIdCounter`, the
component's `textBindings` registry (insertion-ordered association list;
registration also subscribes the record's update callback), and the
elements handed to `processSubComponent`.  The instantiation performed by
`processSubComponent` itself (dynamic `window[componentId]` lookup and the
subcomponent's `show`) is outside the discovery model; the hand-off is
recorded. -/
structure ScanSt where
  counter : Nat
  textBindings : List (String × List TextBindingInfo)
deriving DecidableEq

/-- Discovery state proper: the scan state plus the subcomponent
hand-offs. -/
structure DiscSt where
  scan : ScanSt
  subcomponents : List Dom
deriving DecidableEq

/-- `if (typeof this.textBindings[path] === 'undefined') { this.textBindings
[path] = new Array(); } ... this.textBindings[path].push(rec)`. -/
def pushTB : List (String × List TextBindingInfo) → String →
    TextBindingInfo → List (String × List TextBindingInfo)
  | [], path, rec => [(path, [rec])]
  | (k, l) :: rest, path, rec =>
      if k = path then (k, l ++ [rec]) :: rest
      else (k, l) :: pushTB rest path rec

/-- The per-match registration loop: for each matched token, derive the
path, subscribe `this[path].onValueChanged` (faulting when the path is not
an observable on the component), and push the record. -/
def registerMatches (obs : List (String × String)) :
    List (List Char) → Nat → Nat → String → ScanSt →
    Except JsError ScanSt
  | [], _, _, _, st => .ok st
  | m :: ms, bidN, i, v, st =>
      match lookupA (stripBraces m) obs with
      | none => .error .typeError
      | some _ =>
          registerMatches obs ms bidN i v
            { st with textBindings :=
                pushTB st.textBindings (stripBraces m) ⟨bidN, i, stripBraces m, v⟩ }

/-- The text-scan phase of `processElements` over an element's children:
walks the direct text children with the filtered text-node index `i`,
allocates the element's binding id on the first matched node, registers
every match, and produces the in-place replacement value of each text child
(`none` = untouched). -/
def scanOwnTexts (obs : List (String × String)) :
    Dom → Nat → Option Nat → ScanSt →
    Except JsError (List (Option String) × Option Nat × ScanSt)
  | .nil, _, bid, st => .ok ([], bid, st)
  | .elemCons _ _ _ _ rest, i, bid, st => scanOwnTexts obs rest i bid st
  | .textCons v rest, i, bid, st =>
      if (scanMatches v.toList).isEmpty then
        (scanOwnTexts obs rest (i + 1) bid st).map
          (fun r => (none :: r.1, r.2))
      else
        match bid with
        | some b =>
            match registerMatches obs (scanMatches v.toList) b i v st with
            | .error e => .error e
            | .ok st2 =>
                match resolveBindingText obs v with
                | none => .error .typeError
                | some v' =>
                    (scanOwnTexts obs rest (i + 1) (some b) st2).map
                      (fun r => (some v' :: r.1, r.2))
        | none =>
            match registerMatches obs (scanMatches v.toList) st.counter i v
                { st with counter := st.counter + 1 } with
            | .error e => .error e
            | .ok st2 =>
                match resolveBindingText obs v with
                | none => .error .typeError
                | some v' =>
                    (scanOwnTexts obs rest (i + 1) (some st.counter) st2).map
                      (fun r => (some v' :: r.1, r.2))

/-- The element's `id` attribute after its text scan: overwritten with
`"BindingElement" + bindingId` when a binding id was allocated. -/
def elemIdAfter (idAttr : String) (bid : Option Nat) : String :=
  match bid with
  | none => idAttr
  | some b => "BindingElement" ++ toString b

/-- Applies the text replacements computed by `scanOwnTexts` to an
element's children: one queued value per direct text child, in order;
element children (and everything below them) pass through unchanged. -/
def substTexts : Dom → List (Option String) → Dom
  | .nil, _ => .nil
  | .textCons v rest, vals =>
      match vals with
      | [] => .textCons v (substTexts rest [])
      | vo :: vs => .textCons (vo.getD v) (substTexts rest vs)
  | .elemCons t i a c rest, vals => .elemCons t i a c (substTexts rest vals)

/-- The direct element children of a forest, each kept with its whole
subtree (as a singleton forest). -/
def elemsOf : Dom → List Dom
  | .nil => []
  | .textCons _ rest => elemsOf rest
  | .elemCons t i a c rest => Dom.elemCons t i a c .nil :: elemsOf rest

/-- The recursion of `processElements` over a sibling forest.  Text nodes
at this level belong to the *enclosing* element; their queued replacement
values (from the encloser's `scanOwnTexts`) are applied as the walk passes
them.  Each element runs its own text scan, then is either recorded as a
subcomponent boundary (`data-component` present — its children are not
entered) or recursed into. -/
def processSiblings (obs : List (String × String)) :
    Dom → List (Option String) → DiscSt → Except JsError (Dom × DiscSt)
  | .nil, _, st => .ok (.nil, st)
  | .textCons v rest, vals, st =>
      match vals with
      | [] =>
          (processSiblings obs rest [] st).map
            (fun r => (.textCons v r.1, r.2))
      | vo :: vs =>
          (processSiblings obs rest vs st).map
            (fun r => (.textCons (vo.getD v) r.1, r.2))
  | .elemCons t i a c rest, vals, st =>
      match scanOwnTexts obs c 0 none st.scan with
      | .error e => .error e
      | .ok (newVals, bid, s1) =>
          if (lookupA "data-component" a).isSome then
            (processSiblings obs rest vals
              { scan := s1, subcomponents := st.subcomponents ++
                  [Dom.elemCons t (elemIdAfter i bid) a
                    (substTexts c newVals) .nil] }).map
              (fun r => (Dom.elemCons t (elemIdAfter i bid) a
                (substTexts c newVals) r.1, r.2))
          else
            match processSiblings obs c newVals { scan := s1, subcomponents := st.subcomponents } with
            | .error e => .error e
            | .ok (c', st2) =>
                (processSiblings obs rest vals st2).map
                  (fun r => (Dom.elemCons t (elemIdAfter i bid) a c' r.1, r.2))

/-- `Component.processElements(rootHtmlElement)`: the root element (a
freshly created `rootTag` element carrying the parsed template body as
children) goes through the same per-element step as any descendant. -/
def processElements (obs : List (String × String)) (tag idAttr : String)
    (attrs : List (String × String)) (children : Dom) (st : DiscSt) :
    Except JsError (Dom × DiscSt) :=
  processSiblings obs (Dom.elemCons tag idAttr attrs children .nil) [] st

/-- `PropertyBindingInfo` from `Component.ts` (the subscription callback is
represented by the `propertySubs` entries of `CompState`). -/
structure PropertyBindingInfo where
  bindingPath : String
  bindingProperty : String
deriving DecidableEq

/-- The `<script>` template element the constructor looks up by
`"template_" + id`: its attributes, its `data-root-tag`, and the parsed
children of its `innerHTML`. -/
structure CompTemplate where
  attrs : List (String × String)
  rootTag : String
  body : Dom

/-- The component state produced by a successful construction. -/
structure CompState where
  rootHtmlElement : Dom
  textBindings : List (String × List TextBindingInfo)
  propertyBindings : List (String × List PropertyBindingInfo)
  propertySubs : List (String × String)
  counter : Nat
  subcomponents : List Dom

/-- Appends a record to an existing `propertyBindings` entry (only
reachable if the entry exists — which the constructor never arranges). -/
def updatePB : List (String × List PropertyBindingInfo) → String →
    PropertyBindingInfo → List (String × List PropertyBindingInfo)
  | [], _, _ => []
  | (k, l) :: rest, path, rec =>
      if k = path then (k, l ++ [rec]) :: rest
      else (k, l) :: updatePB rest path rec

/-- The property-binding loop of the `Component` constructor, over the
template element's attributes.  For a `data-property-` attribute: derive
`bindingPath` (strip `{{`/`}}` from the value) and the property name; the
code then initialises `this.textBindings[bindingPath]` (not
`propertyBindings`!) when undefined; subscribes
`this.parentComponent[bindingPath].onValueChanged` (faulting when there is
no parent or the parent lacks that observable); and finally calls
`this.propertyBindings[bindingPath].push(...)` — but `propertyBindings` was
never given that key, so the member is `undefined` and `.push` faults. -/
def propLoop (parentPaths : Option (List String)) :
    List (String × String) → List (String × List TextBindingInfo) →
    List (String × List PropertyBindingInfo) → List (String × String) →
    Except JsError (List (String × List TextBindingInfo) ×
      List (String × List PropertyBindingInfo) × List (String × String))
  | [], tb, pb, subs => .ok (tb, pb, subs)
  | (name, value) :: rest, tb, pb, subs =>
      if jsStartsWith name "data-property-" then
        let bindingPath := String.mk (jsSubstr value.toList 2 (value.toList.length - 4))
        let propertyName := String.mk (name.toList.drop 14)
        let tb1 := match lookupA bindingPath tb with
          | none => tb ++ [(bindingPath, [])]
          | some _ => tb
        match parentPaths with
        | none => .error .typeError
        | some pp =>
            if bindingPath ∈ pp then
              match lookupA bindingPath pb with
              | none => .error .typeError
              | some _ =>
                  propLoop parentPaths rest tb1
                    (updatePB pb bindingPath ⟨bindingPath, propertyName⟩)
                    (subs ++ [(bindingPath, propertyName)])
            else .error .typeError
      else propLoop parentPaths rest tb pb subs

/-- The `Component` constructor.  `ownObs` are the component's own
observable properties (`this[path].value`), `parentPaths` the parent
component's observable properties (`none` = no parent), `counter0` the
current process-wide binding-id counter.  Missing template: `Error`
("Tried to instantiate non-existing template").  Then the property-binding
loop, then the parsed body is appended under a fresh `rootTag` element and
`processElements` runs on it. -/
def componentCtor (ownObs : List (String × String))
    (parentPaths : Option (List String)) (tmpl : Option CompTemplate)
    (counter0 : Nat) : Except JsError CompState :=
  match tmpl with
  | none => .error .errNoTemplate
  | some tp =>
      match propLoop parentPaths tp.attrs [] [] [] with
      | .error e => .error e
      | .ok (tb0, pb0, subs) =>
          match processElements ownObs tp.rootTag "" [] tp.body
              ⟨⟨counter0, tb0⟩, []⟩ with
          | .error e => .error e
          | .ok (rootOut, stD) =>
              .ok { rootHtmlElement := rootOut,
                    textBindings := stD.scan.textBindings,
                    propertyBindings := pb0, propertySubs := subs,
                    counter := stD.scan.counter,
                    subcomponents := stD.subcomponents }

/-! ### The `Repeater` list reconciler

The repeater's base class here is the legacy custom-element `Component`
(referenced by `Repeater.ts` but not part of the sources); its
`dataContext`, `dataBinder`, `parentComponent` and `attachedCallback`
collaborators are modelled from the spec's interface section (§6): an
`Observable` data context whose `value` may be an `ObservableArray`
(`DCValue.arr items`) or anything else, and a `DataBinder` whose
`processBindings` returns fresh subscribed records and whose
`releaseBindings` unsubscribes the given records.

DOM nodes owned by the repeater's parent element are identified by numeric
ids; `parentChildren` is the child list of `this.parentNode`, which
contains the repeater element itself (`repeaterId`).  Each clone node and
each binding record carries `ctx`, the array item whose per-item
`Observable` data context was applied to it (`applyMyDataContext` /
`processBindings(node, itemDataContext)`). -/

/-- A DOM node created by cloning the repeater's template, tagged with the
array item its data context wraps. -/
structure RNode where
  id : Nat
  ctx : Nat
deriving DecidableEq

/-- `NodeDataBindingInformation`: one data-binding record produced by
`dataBinder.processBindings` for a clone node (`nodeId`) against a per-item
data context (`ctx`). -/
structure NodeDataBindingInformation where
  id : Nat
  nodeId : Nat
  ctx : Nat
deriving DecidableEq

/-- The shape of the repeater's `<template>`: how many top-level nodes one
clone of its content has, and how many binding records the data binder
discovers per clone node. -/
structure TemplateSpec where
  nodeCount : Nat
  bindingsPerNode : Nat
deriving DecidableEq

/-- `this.dataContext.value`: either an `ObservableArray` of items
(`instanceof ObservableArray` holds) or some other value. -/
inductive DCValue where
  | arr (items : List Nat)
  | other
deriving DecidableEq

/-- The slice of `this.parentComponent` the repeater reads: its `tagName`
(for the `console.error` diagnostic) and which callback names exist on it. -/
structure ParentComp where
  tagName : String
  callbackNames : List String
deriving DecidableEq

/-- Errors a repeater operation can raise:  the two `Error`s thrown by
`attachedCallback`, JS `TypeError`s from `null`/`undefined` member access,
and the DOM `NotFoundError` thrown by `insertBefore` when the reference
node is not a child of the parent. -/
inductive RepError where
  | errTemplateUndefined
  | errInvalidDataContext
  | typeError
  | notFound
deriving DecidableEq

/-- The `Repeater`'s state. -/
structure RepState where
  repeaterId : Nat
  parentChildren : List Nat
  template : Option TemplateSpec
  dataContextValue : DCValue
  attributes : List (String × String)
  parentComponent : Option ParentComp
  itemEventCallbacks : List (String × String)
  itemNodes : List (List RNode)
  itemNodeBindings : List (List NodeDataBindingInformation)
  activeBindings : List NodeDataBindingInformation
  subsValueChanged : Nat
  subsItemAdded : Nat
  subsItemRemoved : Nat
  nextNodeId : Nat
  nextBindingId : Nat
deriving DecidableEq

/-- `x.nextSibling` within a child list: the node after the first
occurrence of `x`, `none` when `x` is last or absent (`null`). -/
def nextAfter : List Nat → Nat → Option Nat
  | [], _ => none
  | y :: rest, x => if y = x then rest.head? else nextAfter rest x

/-- Inserts `ns` immediately before the first occurrence of `r`;
`NotFoundError` when `r` is not in the list. -/
def insertBeforeAt : List Nat → Nat → List Nat → Except RepError (List Nat)
  | [], _, _ => .error .notFound
  | x :: rest, r, ns =>
      if x = r then .ok (ns ++ x :: rest)
      else (insertBeforeAt rest r ns).map (fun l => x :: l)

/-- `parent.insertBefore(fragment, ref)` on a child list: the fragment's
nodes `ns` are appended when `ref` is `null`/`undefined`, otherwise
inserted before the first occurrence of `ref`. -/
def insertBeforeDom (l : List Nat) (ref : Option Nat) (ns : List Nat) :
    Except RepError (List Nat) :=
  match ref with
  | none => .ok (l ++ ns)
  | some r => insertBeforeAt l r ns

/-- JS `array.splice(pos, 0, a)`: insert at `pos`, clamped to the length. -/
def spliceIns : Nat → α → List α → List α
  | 0, a, l => a :: l
  | _ + 1, a, [] => [a]
  | n + 1, a, x :: l => x :: spliceIns n a l

/-- JS `array.splice(pos, 1)`: delete at `pos` (no-op out of range). -/
def spliceDel : Nat → List α → List α
  | _, [] => []
  | 0, _ :: l => l
  | n + 1, x :: l => x :: spliceDel n l

/-- The nodes produced by `document.importNode(this.template.content, true)`
for one item: `nodeCount` fresh node ids, each carrying the item's fresh
per-item `Observable` data context (`applyMyDataContext`). -/
def cloneNodesFor (t : TemplateSpec) (startId item : Nat) : List RNode :=
  (List.range t.nodeCount).map (fun j => ⟨startId + j, item⟩)

/-- Modelled from the spec: `DataBinder.processBindings(node, scope)`
(§6) returns the binding records discovered under `node` against `scope`
and subscribes each of them; the records for one clone are gathered
node-by-node into `itemBindings`.  Fresh record ids, `bpn` records per
clone node. -/
def bindingsFor (bpn : Nat) (startBid : Nat) : List RNode →
    List NodeDataBindingInformation
  | [] => []
  | n :: rest =>
      ((List.range bpn).map (fun k => ⟨startBid + k, n.id, n.ctx⟩)) ++
        bindingsFor bpn (startBid + bpn) rest

/-- `Repeater.itemAdded(arg)` with `arg = {item, position}`.  Follows the
source order: clone the template and apply the per-item data context;
capture the reference node *before* `itemNodes` is spliced (three-way rule:
first item → the repeater's `nextSibling`; `position <` current count → the
first node of the entry currently at `position`; otherwise → the node after
the last node of the current last entry); splice `itemNodes`; insert the
clone into the parent; discover bindings (`processBindings`); splice
`itemNodeBindings`; resolve the new bindings (no structural effect). -/
def refNodeFor (st : RepState) (pos : Nat) : Except RepError (Option Nat) :=
  if st.itemNodes.length = 0 then
    .ok (nextAfter st.parentChildren st.repeaterId)
  else if pos < st.itemNodes.length then
    .ok (((st.itemNodes[pos]?.getD []).head?).map RNode.id)
  else
    match (st.itemNodes.getLast?.getD []).getLast? with
    | none => .error .typeError
    | some lastN => .ok (nextAfter st.parentChildren lastN.id)

/-- `Repeater.itemAdded(arg)` with `arg = {item, position}`, continued:
see `refNodeFor` for the captured reference node. -/
def itemAdded (pos item : Nat) (st : RepState) : Except RepError RepState :=
  match st.template with
  | none => .error .typeError
  | some t =>
    let cloneNodes := cloneNodesFor t st.nextNodeId item
    match refNodeFor st pos with
    | .error e => .error e
    | .ok ref =>
      match insertBeforeDom st.parentChildren ref (cloneNodes.map RNode.id) with
      | .error e => .error e
      | .ok pc' =>
        let itemBindings := bindingsFor t.bindingsPerNode st.nextBindingId cloneNodes
        .ok { st with
          itemNodes := spliceIns pos cloneNodes st.itemNodes,
          parentChildren := pc',
          activeBindings := st.activeBindings ++ itemBindings,
          itemNodeBindings := spliceIns pos itemBindings st.itemNodeBindings,
          nextNodeId := st.nextNodeId + t.nodeCount,
          nextBindingId := st.nextBindingId + t.nodeCount * t.bindingsPerNode }

/-- `node.parentNode.removeChild(node)` for each node in order; `none` when
some node has no parent (`parentNode` is `null`, so member access faults). -/
def removeAllNodes : List Nat → List RNode → Option (List Nat)
  | l, [] => some l
  | l, n :: rest =>
      if n.id ∈ l then removeAllNodes (l.erase n.id) rest else none

/-- `Repeater.itemRemoved(arg)`: release the entry's bindings via the data
binder (modelled from the spec: `releaseBindings` unsubscribes exactly the
given records), splice them out of `itemNodeBindings`, remove the entry's
DOM nodes from their parent, splice the entry out of `itemNodes`. -/
def itemRemoved (pos : Nat) (st : RepState) : Except RepError RepState :=
  match st.itemNodeBindings[pos]? with
  | none => .error .typeError
  | some itemBindings =>
    let active' := st.activeBindings.filter (fun b => !(decide (b ∈ itemBindings)))
    match st.itemNodes[pos]? with
    | none => .error .typeError
    | some nodes =>
      match removeAllNodes st.parentChildren nodes with
      | none => .error .typeError
      | some pc' =>
        .ok { st with
          activeBindings := active',
          itemNodeBindings := spliceDel pos st.itemNodeBindings,
          parentChildren := pc',
          itemNodes := spliceDel pos st.itemNodes }

/-- The node-removal sweep at the top of `dataContextUpdated`, over every
current item entry. -/
def removeGroups : List Nat → List (List RNode) → Option (List Nat)
  | pc, [] => some pc
  | pc, g :: gs =>
      match removeAllNodes pc g with
      | none => none
      | some pc' => removeGroups pc' gs

/-- The loop body of `Repeater.populateAllItems`: per item, clone the
template, insert before the running reference node, advance the reference
to `cloneNodes[cloneNodes.length - 1].nextSibling` (a `TypeError` when the
clone is empty), discover bindings, append to both parallel arrays.
`resolveAllBindings` at the end has no structural effect. -/
def populateLoop (t : TemplateSpec) :
    List Nat → Option Nat → RepState → Except RepError RepState
  | [], _, st => .ok st
  | item :: items, refNode, st =>
      let cloneNodes := cloneNodesFor t st.nextNodeId item
      match insertBeforeDom st.parentChildren refNode (cloneNodes.map RNode.id) with
      | .error e => .error e
      | .ok pc' =>
          match cloneNodes.getLast? with
          | none => .error .typeError
          | some lastN =>
              let itemBindings := bindingsFor t.bindingsPerNode st.nextBindingId cloneNodes
              populateLoop t items (nextAfter pc' lastN.id)
                { st with
                  itemNodes := st.itemNodes ++ [cloneNodes],
                  parentChildren := pc',
                  activeBindings := st.activeBindings ++ itemBindings,
                  itemNodeBindings := st.itemNodeBindings ++ [itemBindings],
                  nextNodeId := st.nextNodeId + t.nodeCount,
                  nextBindingId := st.nextBindingId + t.nodeCount * t.bindingsPerNode }

/-- `Repeater.dataContextUpdated`: remove all rendered item nodes, clear
both parallel arrays, run full population, then subscribe to the array's
`itemAdded`/`itemRemoved` streams.  When `dataContext.value` is not an
`ObservableArray`, `array.size` is `undefined`, the population loop runs
zero times, and the `itemAdded.subscribe` member access faults. -/
def dataContextUpdated (st : RepState) : Except RepError RepState :=
  match removeGroups st.parentChildren st.itemNodes with
  | none => .error .typeError
  | some pc' =>
      let st1 := { st with
        parentChildren := pc'
        itemNodes := []
        itemNodeBindings := [] }
      match st.template with
      | none => .error .typeError
      | some t =>
          match st.dataContextValue with
          | .other => .error .typeError
          | .arr items =>
              match populateLoop t items (nextAfter pc' st.repeaterId) st1 with
              | .error e => .error e
              | .ok st2 =>
                  .ok { st2 with
                    subsItemAdded := st2.subsItemAdded + 1
                    subsItemRemoved := st2.subsItemRemoved + 1 }

/-- The `data-event-item-` attribute sweep of `Repeater.attachedCallback`.
A named callback present on the parent component is recorded; a missing
one is only logged (`console.error`) — but that log reads
`this.parentComponent.tagName`, which faults when there is no parent
component at all. -/
def processEventAttrs (parent : Option ParentComp) :
    List (String × String) → List (String × String) →
    Except RepError (List (String × String))
  | [], acc => .ok acc
  | (name, value) :: rest, acc =>
      if jsStartsWith name "data-event-item-" then
        let eventName := String.mk (name.toList.drop 16)
        match parent with
        | some p =>
            if value ∈ p.callbackNames then
              processEventAttrs parent rest (acc ++ [(eventName, value)])
            else processEventAttrs parent rest acc
        | none => .error .typeError
      else processEventAttrs parent rest acc

/-- `Repeater.attachedCallback`.  `super.attachedCallback()` is modelled
from the spec as a non-failing lifecycle hook (identity).  Then: throw
`Error` when `querySelector("template")` found nothing; throw `Error` when
`dataContext.value` is not an `ObservableArray`; wire item event
attributes; subscribe to `dataContext.onValueChanged`; run
`dataContextUpdated()`.  Nothing is caught: every error propagates. -/
def attachedCallback (st : RepState) : Except RepError RepState :=
  match st.template with
  | none => .error .errTemplateUndefined
  | some _ =>
    match st.dataContextValue with
    | .other => .error .errInvalidDataContext
    | .arr _ =>
      match processEventAttrs st.parentComponent st.attributes [] with
      | .error e => .error e
      | .ok cbs =>
          dataContextUpdated
            { st with
              itemEventCallbacks := cbs
              subsValueChanged := st.subsValueChanged + 1 }

/-! ### `Component.show` / `Component.hide`

The DOM state these two methods touch is modelled as an association list
from container element ids to their child-node id lists (`document.body` is
container `0`; a component's `rootHtmlElement` is a container of its own).
-/

/-- The slice of a `Component`'s state that `show`/`hide` read and write. -/
structure ComponentView where
  isShowing : Bool
  rootHtmlElement : Nat
  parentComponent : Option Nat

/-- The id of `document.body`. -/
def bodyId : Nat := 0

/-- Updates container `k`'s child list with `f` (creating the container when
it is absent — every DOM element owns a child list even while detached). -/
def updateContainer (doc : List (Nat × List Nat)) (k : Nat)
    (f : List Nat → List Nat) : List (Nat × List Nat) :=
  match doc with
  | [] => [(k, f [])]
  | p :: rest =>
      if p.1 = k then (p.1, f p.2) :: rest else p :: updateContainer rest k f

/-- The container holding node `n`, i.e. `n.parentNode` (`none` = `null`). -/
def containerOf (doc : List (Nat × List Nat)) (n : Nat) : Option Nat :=
  (doc.find? (fun p => n ∈ p.2)).map (·.1)

/-- `parent.insertBefore(node, ref)` on one child list: insert before the
first occurrence of `ref`, or append when `ref` is `null`. -/
def insBefore (l : List Nat) (r : Nat) (ns : List Nat) : List Nat :=
  match l with
  | [] => ns
  | x :: rest => if x = r then ns ++ x :: rest else x :: insBefore rest r ns

/-- `Component.show(replaceElement?)`.  When the component is already
showing it returns immediately; otherwise the root element is inserted in
place of `replaceElement` (which is then removed), or appended to
`document.body` or the parent component's root. -/
def showComponent (c : ComponentView) (doc : List (Nat × List Nat))
    (repl : Option Nat) : Except JsError (ComponentView × List (Nat × List Nat)) :=
  if c.isShowing then .ok (c, doc)
  else
    let appendParent := match c.parentComponent with
      | none => bodyId
      | some p => p
    match repl with
    | some r =>
        match containerOf doc r with
        | none => .error .typeError
        | some k =>
            .ok ({ c with isShowing := true },
              updateContainer doc k
                (fun l => (insBefore l r [c.rootHtmlElement]).erase r))
    | none =>
        .ok ({ c with isShowing := true },
          updateContainer doc appendParent (fun l => l ++ [c.rootHtmlElement]))

/-- `Component.hide()`.  When the component is not showing it returns
immediately; otherwise `rootHtmlElement.parentElement.removeChild` runs
(faulting when the root has no parent). -/
def hideComponent (c : ComponentView) (doc : List (Nat × List Nat)) :
    Except JsError (ComponentView × List (Nat × List Nat)) :=
  if !c.isShowing then .ok (c, doc)
  else
    match containerOf doc c.rootHtmlElement with
    | none => .error .typeError
    | some k =>
        .ok ({ c with isShowing := false },
          updateContainer doc k (fun l => l.erase c.rootHtmlElement))

/-! ### Alignment of the parallel structures (C1) -/

/-- One array event delivered to the repeater (`ObservableArrayEventArgs`). -/
inductive ArrayEvent where
  | add (position item : Nat)
  | remove (position : Nat)
deriving DecidableEq

/-- The mutation of the backing `ObservableArray` that the event mirrors. -/
def applyEvent : ArrayEvent → List Nat → List Nat
  | .add p x, l => spliceIns p x l
  | .remove p, l => spliceDel p l

/-- The event names a valid position of the backing array. -/
def validEvent : ArrayEvent → List Nat → Prop
  | .add p _, l => p ≤ l.length
  | .remove p, l => p < l.length

/-- The repeater handler the event triggers. -/
def stepEvent : ArrayEvent → RepState → Except RepError RepState
  | .add p x, st => itemAdded p x st
  | .remove p, st => itemRemoved p st

/-- `groupsCtxAligned f gs xs`: the parallel structure `gs` has exactly one
group per backing-array entry, and every record in group `i` carries the
data context of `xs[i]`. -/
def groupsCtxAligned (f : α → Nat) : List (List α) → List Nat → Bool
  | [], [] => true
  | g :: gs, x :: xs =>
      g.all (fun r => f r == x) && groupsCtxAligned f gs xs
  | _, _ => false

/-- The C1 invariant: `itemNodes` and `itemNodeBindings` are index-aligned
with the backing array, each entry built around the matching array item. -/
def Aligned (st : RepState) (backing : List Nat) : Prop :=
  groupsCtxAligned RNode.ctx st.itemNodes backing = true ∧
  groupsCtxAligned NodeDataBindingInformation.ctx st.itemNodeBindings backing = true

/-- A finite sequence of events, each at a valid position and each handled
without a fault, from `(st, bk)` to `(st'', bk'')`. -/
inductive ValidRun :
    RepState → List Nat → List ArrayEvent → RepState → List Nat → Prop
  | nil (st : RepState) (bk : List Nat) : ValidRun st bk [] st bk
  | cons {st : RepState} {bk : List Nat} {e : ArrayEvent}
      {es : List ArrayEvent} {st' st'' : RepState} {bk'' : List Nat} :
      validEvent e bk → stepEvent e st = .ok st' →
      ValidRun st' (applyEvent e bk) es st'' bk'' →
      ValidRun st bk (e :: es) st'' bk''

/-! ### Concrete states and registry wellformedness used by the claim theorems -/

/-- The initial repeater state used by concrete witnesses: freshly attached
above an empty backing array, the repeater element (id 0) the only child of
its parent, a one-node one-binding template. -/
def wBase : RepState :=
  { repeaterId := 0, parentChildren := [0], template := some ⟨1, 1⟩,
    dataContextValue := .arr [], attributes := [], parentComponent := none,
    itemEventCallbacks := [], itemNodes := [], itemNodeBindings := [],
    activeBindings := [], subsValueChanged := 0, subsItemAdded := 0,
    subsItemRemoved := 0, nextNodeId := 10, nextBindingId := 100 }

def wAfterAdd : RepState :=
  { wBase with
    parentChildren := [0, 10]
    itemNodes := [[⟨10, 7⟩]]
    itemNodeBindings := [[⟨100, 10, 7⟩]]
    activeBindings := [⟨100, 10, 7⟩]
    nextNodeId := 11
    nextBindingId := 101 }

/-- A repeater whose `<template>` is present but empty (`nodeCount = 0`)
over a nonempty backing array. -/
def c6State : RepState :=
  { wBase with
    template := some ⟨0, 0⟩
    dataContextValue := .arr [5] }

/-- The repeater state after `itemAdded 0 8` on `wAfterAdd` (rendering
`[8, 7]`). -/
def wAfterTwo : RepState :=
  { wBase with
    parentChildren := [0, 11, 10]
    itemNodes := [[⟨11, 8⟩], [⟨10, 7⟩]]
    itemNodeBindings := [[⟨101, 11, 8⟩], [⟨100, 10, 7⟩]]
    activeBindings := [⟨100, 10, 7⟩, ⟨101, 11, 8⟩]
    nextNodeId := 12
    nextBindingId := 102 }

/-- The repeater state after `itemRemoved 0` on `wAfterTwo` (back to
rendering `[7]`). -/
def wAfterRemove : RepState :=
  { wBase with
    parentChildren := [0, 10]
    itemNodes := [[⟨10, 7⟩]]
    itemNodeBindings := [[⟨100, 10, 7⟩]]
    activeBindings := [⟨100, 10, 7⟩]
    nextNodeId := 12
    nextBindingId := 102 }

/-- The child forest of the `data-component` span in the C8 scenario: a
bound text `{{x}}` plus a grandchild element containing `{{y}}`. -/
def c8SpanKids : Dom :=
  .textCons "{{x}}" (.elemCons "div" "" [] (.textCons "{{y}}" .nil) .nil)

/-- The C8 scenario forest: one `span` carrying `data-component`. -/
def c8Kids : Dom :=
  .elemCons "span" "" [("data-component", "TestComp")] c8SpanKids .nil

/-- The processed span: its own text was scanned (resolved to `"V"`, id
assigned), its grandchild untouched. -/
def c8Out : Dom :=
  .elemCons "span" "BindingElement0" [("data-component", "TestComp")]
    (.textCons "V" (.elemCons "div" "" [] (.textCons "{{y}}" .nil) .nil))
    .nil

/-- The discovery state after the C8 scenario. -/
def c8OutSt : DiscSt :=
  ⟨⟨1, [("x", [⟨0, 0, "x", "{{x}}"⟩])]⟩, [c8Out]⟩

/-- Records for one path that target the same element id and the same text
index carry the same original template text. -/
def RecordsCompat (bindings : List TextBindingInfo) : Prop :=
  ∀ b ∈ bindings, ∀ b' ∈ bindings, targetIdOf b = targetIdOf b' →
    b.textNodeIndex = b'.textNodeIndex → b.bindingText = b'.bindingText

/-- The pairwise form `RecordsCompat` grants between a record and the
records met later in the run. -/
def CompatPair (b b' : TextBindingInfo) : Prop :=
  targetIdOf b = targetIdOf b' → b.textNodeIndex = b'.textNodeIndex →
    b.bindingText = b'.bindingText

theorem groupsCtxAligned_length {f : α → Nat} :
    ∀ {gs : List (List α)} {xs : List Nat},
      groupsCtxAligned f gs xs = true → gs.length = xs.length := by
  intro gs
  induction gs with
  | nil =>
      intro xs h
      cases xs with
      | nil => rfl
      | cons x xs => simp [groupsCtxAligned] at h
  | cons g gs ih =>
      intro xs h
      cases xs with
      | nil => simp [groupsCtxAligned] at h
      | cons x xs =>
          simp only [groupsCtxAligned, Bool.and_eq_true] at h
          simp [ih h.2]

theorem groupsCtxAligned_spliceIns {f : α → Nat} {g : List α} {x : Nat}
    (hg : g.all (fun r => f r == x) = true) :
    ∀ (p : Nat) {gs : List (List α)} {xs : List Nat},
      groupsCtxAligned f gs xs = true →
      groupsCtxAligned f (spliceIns p g gs) (spliceIns p x xs) = true := by
  intro p
  induction p with
  | zero =>
      intro gs xs h
      simp [spliceIns, groupsCtxAligned, hg, h]
  | succ n ih =>
      intro gs xs h
      cases gs with
      | nil =>
          cases xs with
          | nil => simp [spliceIns, groupsCtxAligned, hg]
          | cons x' xs => simp [groupsCtxAligned] at h
      | cons g' gs =>
          cases xs with
          | nil => simp [groupsCtxAligned] at h
          | cons x' xs =>
              simp only [groupsCtxAligned, Bool.and_eq_true] at h
              simp [spliceIns, groupsCtxAligned, h.1, ih h.2]

theorem groupsCtxAligned_spliceDel {f : α → Nat} :
    ∀ (p : Nat) {gs : List (List α)} {xs : List Nat},
      groupsCtxAligned f gs xs = true →
      groupsCtxAligned f (spliceDel p gs) (spliceDel p xs) = true := by
  intro p
  induction p with
  | zero =>
      intro gs xs h
      cases gs with
      | nil =>
          cases xs with
          | nil => simp [spliceDel, groupsCtxAligned]
          | cons x xs => simp [groupsCtxAligned] at h
      | cons g gs =>
          cases xs with
          | nil => simp [groupsCtxAligned] at h
          | cons x xs =>
              simp only [groupsCtxAligned, Bool.and_eq_true] at h
              simp [spliceDel, h.2]
  | succ n ih =>
      intro gs xs h
      cases gs with
      | nil =>
          cases xs with
          | nil => simp [spliceDel, groupsCtxAligned]
          | cons x xs => simp [groupsCtxAligned] at h
      | cons g gs =>
          cases xs with
          | nil => simp [groupsCtxAligned] at h
          | cons x xs =>
              simp only [groupsCtxAligned, Bool.and_eq_true] at h
              simp [spliceDel, groupsCtxAligned, h.1, ih h.2]

theorem cloneNodesFor_ctx (t : TemplateSpec) (s item : Nat) :
    (cloneNodesFor t s item).all (fun r => r.ctx == item) = true := by
  simp only [cloneNodesFor, List.all_eq_true]
  intro r hr
  simp only [List.mem_map, List.mem_range] at hr
  obtain ⟨j, _, rfl⟩ := hr
  simp

theorem bindingsFor_ctx {item : Nat} (bpn : Nat) :
    ∀ (sb : Nat) (ns : List RNode), (∀ n ∈ ns, n.ctx = item) →
      (bindingsFor bpn sb ns).all (fun b => b.ctx == item) = true := by
  intro sb ns
  induction ns generalizing sb with
  | nil => intro _; simp [bindingsFor]
  | cons n rest ih =>
      intro hctx
      simp only [bindingsFor, List.all_append, Bool.and_eq_true]
      constructor
      · simp only [List.all_eq_true]
        intro b hb
        simp only [List.mem_map, List.mem_range] at hb
        obtain ⟨k, _, rfl⟩ := hb
        simp [hctx n (List.mem_cons_self n rest)]
      · exact ih (sb + bpn) (fun m hm => hctx m (List.mem_cons_of_mem n hm))

/-- One handled event preserves the alignment invariant, with the backing
array mutated the way the event mirrors. -/
theorem stepEvent_aligned {e : ArrayEvent} {st st' : RepState}
    {bk : List Nat} (hA : Aligned st bk) (hok : stepEvent e st = .ok st') :
    Aligned st' (applyEvent e bk) := by
  obtain ⟨hA1, hA2⟩ := hA
  cases e with
  | add pos item =>
      simp only [stepEvent, itemAdded] at hok
      split at hok
      · exact absurd hok (by simp)
      · split at hok
        · exact absurd hok (by simp)
        · split at hok
          · exact absurd hok (by simp)
          · injection hok with hok
            subst hok
            refine ⟨?_, ?_⟩
            · exact groupsCtxAligned_spliceIns (cloneNodesFor_ctx _ _ _) pos hA1
            · refine groupsCtxAligned_spliceIns ?_ pos hA2
              refine bindingsFor_ctx _ _ _ ?_
              intro n hn
              simp only [cloneNodesFor, List.mem_map, List.mem_range] at hn
              obtain ⟨j, _, rfl⟩ := hn
              rfl
  | remove pos =>
      simp only [stepEvent, itemRemoved] at hok
      split at hok
      · exact absurd hok (by simp)
      · split at hok
        · exact absurd hok (by simp)
        · split at hok
          · exact absurd hok (by simp)
          · injection hok with hok
            subst hok
            exact ⟨groupsCtxAligned_spliceDel pos hA1,
                   groupsCtxAligned_spliceDel pos hA2⟩

/-- Claim C1: starting from a populated repeater whose three structures are
aligned, any finite sequence of `itemAdded`/`itemRemoved` events — each
mirroring one backing-array mutation at a valid position, each handler
completing — leaves `itemNodes`, `itemNodeBindings` and the backing array
the same length, with the entries at each index built around that index's
array element.  (Every prefix of a delivered sequence is itself such a
sequence, so the invariant holds after each event.) -/
theorem c1_index_alignment {st st' : RepState} {bk bk' : List Nat}
    {es : List ArrayEvent} (hA : Aligned st bk)
    (hrun : ValidRun st bk es st' bk') :
    Aligned st' bk' ∧ st'.itemNodes.length = bk'.length ∧
      st'.itemNodeBindings.length = bk'.length := by
  induction hrun with
  | nil st bk =>
      exact ⟨hA, groupsCtxAligned_length hA.1, groupsCtxAligned_length hA.2⟩
  | cons hv hok _ ih =>
      exact ih (stepEvent_aligned hA hok)


/-- Witness for `c1_index_alignment`: one `add` event at position 0 of the
empty backing array. -/
theorem c1_index_alignment_witness :
    Aligned wAfterAdd [7] ∧ wAfterAdd.itemNodes.length = 1 := by
  have hrun : ValidRun wBase [] [ArrayEvent.add 0 7] wAfterAdd [7] :=
    ValidRun.cons (Nat.le.refl) rfl (ValidRun.nil wAfterAdd [7])
  have h := c1_index_alignment (show Aligned wBase [] from ⟨rfl, rfl⟩) hrun
  exact ⟨h.1, h.2.1⟩

/-! ### Configuration errors of `attachedCallback` (C6) -/


/-- Claim C6 counterexample: the two claimed configuration errors are not
the only synchronous throws of repeater binding.  Here the `<template>`
child exists and `dataContext.value` is an `ObservableArray`, yet
`attachedCallback` still throws: with an empty template content,
`populateAllItems` reads `cloneNodes[cloneNodes.length - 1].nextSibling`,
i.e. `undefined.nextSibling`, a `TypeError`. -/
theorem c6_attached_counterexample :
    attachedCallback c6State = .error .typeError ∧
    c6State.template ≠ none ∧ c6State.dataContextValue ≠ .other :=
  ⟨rfl, by decide, by decide⟩

/-- Claim C6 as amended: a missing `<template>` child and a
`dataContext.value` that is not an `ObservableArray` each make
`attachedCallback` throw its dedicated `Error` synchronously, uncaught
(modelled by `Except` propagation) — but they are not the only synchronous
failures (see `c6_attached_counterexample`). -/
theorem c6_config_errors_throw (st : RepState) :
    (st.template = none → attachedCallback st = .error .errTemplateUndefined) ∧
    (st.template ≠ none → st.dataContextValue = .other →
      attachedCallback st = .error .errInvalidDataContext) := by
  constructor
  · intro h
    unfold attachedCallback
    rw [h]
  · intro h1 h2
    unfold attachedCallback
    cases hT : st.template with
    | none => exact absurd hT h1
    | some t => rw [h2]

/-- Witness for `c6_config_errors_throw` at concrete repeater states. -/
theorem c6_config_errors_throw_witness :
    attachedCallback { wBase with template := none }
      = .error .errTemplateUndefined ∧
    attachedCallback { wBase with dataContextValue := .other }
      = .error .errInvalidDataContext :=
  ⟨(c6_config_errors_throw { wBase with template := none }).1 rfl,
   (c6_config_errors_throw { wBase with dataContextValue := .other }).2
     (by decide) rfl⟩

/-! ### DOM insertion position of `itemAdded` (C2) -/

theorem nextAfter_append {u v : List Nat} {x : Nat} (hx : x ∉ u) :
    nextAfter (u ++ x :: v) x = v.head? := by
  induction u with
  | nil => simp [nextAfter]
  | cons y u ih =>
      simp only [List.mem_cons, not_or] at hx
      have hyx : ¬ y = x := fun h => hx.1 h.symm
      simp only [List.cons_append, nextAfter, if_neg hyx]
      exact ih hx.2

theorem insertBeforeAt_append {u v ns : List Nat} {r : Nat} (hr : r ∉ u) :
    insertBeforeAt (u ++ r :: v) r ns = .ok (u ++ (ns ++ r :: v)) := by
  induction u with
  | nil => simp [insertBeforeAt]
  | cons y u ih =>
      simp only [List.mem_cons, not_or] at hr
      have hyr : ¬ y = r := fun h => hr.1 h.symm
      have hstep : insertBeforeAt ((y :: u) ++ r :: v) r ns
          = (insertBeforeAt (u ++ r :: v) r ns).map (fun l => y :: l) := by
        simp [insertBeforeAt, hyr]
      rw [hstep, ih hr.2]
      rfl

/-- Inserting before `x.nextSibling` places the new nodes immediately after
`x` (appending when `x` is the last child). -/
theorem insertAfterFirst {u v ns : List Nat} {x : Nat}
    (hnd : (u ++ x :: v).Nodup) :
    insertBeforeDom (u ++ x :: v) (nextAfter (u ++ x :: v) x) ns
      = .ok (u ++ x :: (ns ++ v)) := by
  have hdisj := List.disjoint_of_nodup_append hnd
  have hxu : x ∉ u := fun hx => hdisj hx (List.mem_cons_self x v)
  rw [nextAfter_append hxu]
  cases v with
  | nil => simp [insertBeforeDom]
  | cons h v' =>
      have hne : h ∉ u ++ [x] := by
        intro hmem
        rw [List.mem_append, List.mem_singleton] at hmem
        cases hmem with
        | inl hu =>
            exact hdisj hu (List.mem_cons_of_mem x (List.mem_cons_self h v'))
        | inr hx =>
            rw [List.nodup_append] at hnd
            have := List.nodup_cons.mp hnd.2.1
            exact this.1 (hx ▸ List.mem_cons_self h v')
      have hsplit : u ++ x :: h :: v' = (u ++ [x]) ++ h :: v' := by simp
      simp only [List.head?, insertBeforeDom, hsplit,
        insertBeforeAt_append hne]
      simp

/-- Destructures a successful `itemAdded` run into the captured reference
node, the DOM insertion, and the resulting state. -/
theorem itemAdded_ok_elim {pos item : Nat} {st st' : RepState}
    (h : itemAdded pos item st = .ok st') :
    ∃ t ref pc', st.template = some t ∧ refNodeFor st pos = .ok ref ∧
      insertBeforeDom st.parentChildren ref
        ((cloneNodesFor t st.nextNodeId item).map RNode.id) = .ok pc' ∧
      st' = { st with
        itemNodes := spliceIns pos (cloneNodesFor t st.nextNodeId item)
          st.itemNodes
        parentChildren := pc'
        activeBindings := st.activeBindings ++ bindingsFor t.bindingsPerNode
          st.nextBindingId (cloneNodesFor t st.nextNodeId item)
        itemNodeBindings := spliceIns pos (bindingsFor t.bindingsPerNode
          st.nextBindingId (cloneNodesFor t st.nextNodeId item))
          st.itemNodeBindings
        nextNodeId := st.nextNodeId + t.nodeCount
        nextBindingId := st.nextBindingId + t.nodeCount * t.bindingsPerNode } := by
  simp only [itemAdded] at h
  split at h
  · exact absurd h (by simp)
  · split at h
    · exact absurd h (by simp)
    · split at h
      · exact absurd h (by simp)
      · injection h with h
        exact ⟨_, _, _, by assumption, by assumption, by assumption, h.symm⟩

/-- Claim C2: the DOM insertion point of `itemAdded` follows the three-way
rule.  With the parent child list split around the relevant reference node
(the repeater itself, the first node of the entry currently at `position`,
or the last node of the current last entry), the clone's nodes land exactly
at the claimed spot: before the repeater's next sibling when there are no
items; before the first node of the entry at `position` when
`position < count`; after the last node of the last entry when
`position = count` (and beyond). -/
theorem c2_insertion_position {st st' : RepState} {t : TemplateSpec}
    {pos item : Nat} (hT : st.template = some t)
    (hnd : st.parentChildren.Nodup)
    (hrun : itemAdded pos item st = .ok st') :
    (st.itemNodes = [] →
      ∀ u v, st.parentChildren = u ++ st.repeaterId :: v →
        st'.parentChildren = u ++ st.repeaterId ::
          ((cloneNodesFor t st.nextNodeId item).map RNode.id ++ v)) ∧
    (∀ firstN g, st.itemNodes[pos]? = some (firstN :: g) →
      pos < st.itemNodes.length →
      ∀ u v, st.parentChildren = u ++ firstN.id :: v →
        st'.parentChildren = u ++
          ((cloneNodesFor t st.nextNodeId item).map RNode.id ++
            firstN.id :: v)) ∧
    (st.itemNodes ≠ [] → st.itemNodes.length ≤ pos →
      ∀ lastG lastN, st.itemNodes.getLast? = some lastG →
        lastG.getLast? = some lastN →
      ∀ u v, st.parentChildren = u ++ lastN.id :: v →
        st'.parentChildren = u ++ lastN.id ::
          ((cloneNodesFor t st.nextNodeId item).map RNode.id ++ v)) := by
  obtain ⟨t', ref, pc', hT', href, hins, hst'⟩ := itemAdded_ok_elim hrun
  have ht : t' = t := by
    rw [hT] at hT'
    exact (Option.some.inj hT').symm
  subst ht
  subst hst'
  refine ⟨?_, ?_, ?_⟩
  · intro hempty u v hsplit
    have h0 : refNodeFor st pos
        = .ok (nextAfter st.parentChildren st.repeaterId) := by
      simp [refNodeFor, hempty]
    rw [h0] at href
    have h0' := Except.ok.inj href
    rw [← h0', hsplit] at hins
    rw [hsplit] at hnd
    rw [insertAfterFirst hnd] at hins
    simpa using (Except.ok.inj hins).symm
  · intro firstN g hpos hlt u v hsplit
    have h0 : refNodeFor st pos = .ok (some firstN.id) := by
      have hz : ¬ st.itemNodes.length = 0 := by omega
      simp [refNodeFor, hz, hlt, hpos]
    rw [h0] at href
    have h0' := Except.ok.inj href
    rw [← h0', hsplit] at hins
    rw [hsplit] at hnd
    have hfu : firstN.id ∉ u := fun hx =>
      List.disjoint_of_nodup_append hnd hx (List.mem_cons_self firstN.id v)
    simp only [insertBeforeDom, insertBeforeAt_append hfu] at hins
    simpa using (Except.ok.inj hins).symm
  · intro hne hge lastG lastN hlastG hlastN u v hsplit
    have h0 : refNodeFor st pos = .ok (nextAfter st.parentChildren lastN.id) := by
      have hz : ¬ st.itemNodes.length = 0 := by
        simpa [List.length_eq_zero] using hne
      have hl : ¬ pos < st.itemNodes.length := by omega
      simp [refNodeFor, hz, hl, hlastG, hlastN]
    rw [h0] at href
    have h0' := Except.ok.inj href
    rw [← h0', hsplit] at hins
    rw [hsplit] at hnd
    rw [insertAfterFirst hnd] at hins
    simpa using (Except.ok.inj hins).symm


/-- Witness for `c2_insertion_position`: the spec's scenario — a repeater
rendering `[x]` (node 10), adding `y` at position 0 puts `y`'s node (11)
immediately before `x`'s in the DOM. -/
theorem c2_insertion_position_witness :
    wAfterTwo.parentChildren = [0, 11, 10] := by
  have h := (c2_insertion_position
    (show wAfterAdd.template = some ⟨1, 1⟩ from rfl)
    (show wAfterAdd.parentChildren.Nodup by decide)
    (show itemAdded 0 8 wAfterAdd = .ok wAfterTwo from rfl)).2.1
  exact h ⟨10, 7⟩ [] rfl (by decide) [0] [] rfl

/-! ### Removal cleanup (C3) -/

theorem removeAllNodes_sub :
    ∀ (ns : List RNode) (l l' : List Nat),
      removeAllNodes l ns = some l' → ∀ x ∈ l', x ∈ l := by
  intro ns
  induction ns with
  | nil =>
      intro l l' h x hx
      simp only [removeAllNodes, Option.some.injEq] at h
      exact h ▸ hx
  | cons n rest ih =>
      intro l l' h x hx
      simp only [removeAllNodes] at h
      split at h
      · exact List.mem_of_mem_erase (ih _ _ h x hx)
      · exact absurd h (by simp)

theorem removeAllNodes_clean :
    ∀ (ns : List RNode) (l l' : List Nat), l.Nodup →
      removeAllNodes l ns = some l' → ∀ n ∈ ns, n.id ∉ l' := by
  intro ns
  induction ns with
  | nil => intro l l' _ _ n hn; exact absurd hn (by simp)
  | cons n rest ih =>
      intro l l' hnd h m hm
      simp only [removeAllNodes] at h
      split at h
      · rcases List.mem_cons.mp hm with hmn | hmr
        · subst hmn
          intro hml'
          have hin := removeAllNodes_sub rest _ _ h _ hml'
          exact ((hnd.mem_erase_iff).mp hin).1 rfl
        · exact ih _ _ (hnd.erase _) h m hmr
      · exact absurd h (by simp)

/-- Claim C3: after `itemRemoved` at a valid position of a populated
repeater, every binding record of the removed entry has been released by
the data binder (it is no longer subscribed), every DOM node of the entry
is gone from the parent's child list, and the entry is spliced out of both
`itemNodeBindings` and `itemNodes` at that position. -/
theorem c3_removal_cleanup {st st' : RepState} {pos : Nat}
    {bnds : List NodeDataBindingInformation} {nodes : List RNode}
    (hnd : st.parentChildren.Nodup)
    (hb : st.itemNodeBindings[pos]? = some bnds)
    (hn : st.itemNodes[pos]? = some nodes)
    (hrun : itemRemoved pos st = .ok st') :
    (∀ b ∈ bnds, b ∉ st'.activeBindings) ∧
    (∀ n ∈ nodes, n.id ∉ st'.parentChildren) ∧
    st'.itemNodeBindings = spliceDel pos st.itemNodeBindings ∧
    st'.itemNodes = spliceDel pos st.itemNodes := by
  simp only [itemRemoved, hb, hn] at hrun
  split at hrun
  · exact absurd hrun (by simp)
  · injection hrun with hrun
    subst hrun
    refine ⟨?_, ?_, rfl, rfl⟩
    · intro b hbm hmem
      rw [List.mem_filter] at hmem
      have h2 := hmem.2
      simp only [Bool.not_eq_eq_eq_not, Bool.not_true, decide_eq_false_iff_not] at h2
      exact h2 hbm
    · intro n hnm
      exact removeAllNodes_clean nodes st.parentChildren _ hnd (by assumption)
        n hnm


/-- Witness for `c3_removal_cleanup`: removing the entry at position 0 of
`wAfterTwo` (the spec's scenario 7) unsubscribes its binding record and
removes its DOM node. -/
theorem c3_removal_cleanup_witness :
    (⟨101, 11, 8⟩ : NodeDataBindingInformation) ∉ wAfterRemove.activeBindings ∧
    (11 : Nat) ∉ wAfterRemove.parentChildren := by
  have h := c3_removal_cleanup
    (show wAfterTwo.parentChildren.Nodup by decide)
    (show wAfterTwo.itemNodeBindings[0]? = some [⟨101, 11, 8⟩] from rfl)
    (show wAfterTwo.itemNodes[0]? = some [⟨11, 8⟩] from rfl)
    (show itemRemoved 0 wAfterTwo = .ok wAfterRemove from rfl)
  exact ⟨h.1 _ (List.mem_singleton_self _), h.2.1 _ (List.mem_singleton_self _)⟩

/-! ### Property-binding construction (C7) -/

/-- Claim C7 (code bug evaluated): a component template carrying one
property-binding attribute (`data-property-title="{{title}}"`), with a
parent component that does expose the `title` observable.  Construction
does not produce the claimed `PropertyBindingRecord` wiring: the
constructor initialises `this.textBindings[bindingPath]` where
`propertyBindings` was intended, so `this.propertyBindings[bindingPath]`
is still `undefined` when `.push` is called on it, and construction
aborts with a `TypeError` (after the parent subscription was already
made). -/
theorem c7_property_binding_crash :
    componentCtor [("title", "T")] (some ["title"])
      (some ⟨[("data-property-title", "{{title}}")], "div", Dom.nil⟩) 0
      = .error .typeError
    ∧ jsStartsWith "data-property-title" "data-property-" = true
    ∧ "title" ∈ ["title"] :=
  ⟨rfl, by decide, by decide⟩

/-! ### Subcomponent boundaries in binding discovery (C8) -/

/-- The discovery walk only ever appends to the subcomponent hand-off
list. -/
theorem processSiblings_subcomp_mono {obs : List (String × String)} :
    ∀ (d : Dom) (vals : List (Option String)) (st : DiscSt),
      ∀ out st', processSiblings obs d vals st = .ok (out, st') →
      ∀ x ∈ st.subcomponents, x ∈ st'.subcomponents := by
  intro d vals st
  induction d, vals, st using processSiblings.induct with
  | obs => exact obs
  | case1 xvals st =>
      intro out st' h x hx
      simp only [processSiblings, Except.ok.injEq, Prod.mk.injEq] at h
      rw [← h.2]
      exact hx
  | case2 v rest st ih =>
      intro out st' h x hx
      simp only [processSiblings] at h
      cases hrec : processSiblings obs rest [] st with
      | error e => rw [hrec] at h; exact absurd h (by simp [Except.map])
      | ok r0 =>
          rw [hrec] at h
          simp only [Except.map, Except.ok.injEq, Prod.mk.injEq] at h
          rw [← h.2]
          exact ih r0.1 r0.2 (by rw [hrec]) x hx
  | case3 v rest st vo vs ih =>
      intro out st' h x hx
      simp only [processSiblings] at h
      cases hrec : processSiblings obs rest vs st with
      | error e => rw [hrec] at h; exact absurd h (by simp [Except.map])
      | ok r0 =>
          rw [hrec] at h
          simp only [Except.map, Except.ok.injEq, Prod.mk.injEq] at h
          rw [← h.2]
          exact ih r0.1 r0.2 (by rw [hrec]) x hx
  | case4 t idA a c rest vals st e hscan =>
      intro out st' h x hx
      simp only [processSiblings, hscan] at h
      exact absurd h (by simp)
  | case5 t idA a c rest vals st newVals bid s1 hscan hmark ih =>
      intro out st' h x hx
      simp only [processSiblings, hscan] at h
      rw [if_pos hmark] at h
      cases hrec : processSiblings obs rest vals
          { scan := s1, subcomponents := st.subcomponents ++
              [Dom.elemCons t (elemIdAfter idA bid) a
                (substTexts c newVals) Dom.nil] } with
      | error e => rw [hrec] at h; exact absurd h (by simp [Except.map])
      | ok r0 =>
          rw [hrec] at h
          simp only [Except.map, Except.ok.injEq, Prod.mk.injEq] at h
          rw [← h.2]
          exact ih r0.1 r0.2 (by rw [hrec]) x (List.mem_append_left _ hx)
  | case6 t idA a c rest vals st newVals bid s1 hscan hmark e herr ih =>
      intro out st' h x hx
      simp only [processSiblings, hscan] at h
      rw [if_neg hmark] at h
      simp only [herr] at h
      exact absurd h (by simp)
  | case7 t idA a c rest vals st newVals bid s1 hscan hmark c' st2 hrec ihc ihrest =>
      intro out st' h x hx
      simp only [processSiblings, hscan] at h
      rw [if_neg hmark] at h
      simp only [hrec] at h
      cases hrest : processSiblings obs rest vals st2 with
      | error e => rw [hrest] at h; exact absurd h (by simp [Except.map])
      | ok r0 =>
          rw [hrest] at h
          simp only [Except.map, Except.ok.injEq, Prod.mk.injEq] at h
          rw [← h.2]
          have hx2 : x ∈ st2.subcomponents := ihc c' st2 hrec x hx
          exact ihrest r0.1 r0.2 (by rw [hrest]) x hx2

theorem elemsOf_substTexts :
    ∀ (c : Dom) (vals : List (Option String)),
      elemsOf (substTexts c vals) = elemsOf c := by
  intro c
  induction c with
  | nil => intro vals; rfl
  | textCons v rest ih =>
      intro vals
      cases vals with
      | nil => simp [substTexts, elemsOf, ih]
      | cons vo vs => simp [substTexts, elemsOf, ih]
  | elemCons t idA a ch rest ihc ihrest =>
      intro vals
      simp [substTexts, elemsOf, ihrest]

/-- Claim C8 as amended: discovery's recursion does stop at an element
carrying `data-component` — its child elements are passed through
untouched (`substTexts` only rewrites the element's own direct text
values, `elemsOf` is preserved) and the element is handed to the
subcomponent-instantiation step — but, contrary to the claim, the
element's *own* direct text-node children are still scanned for
`{{identifier}}` tokens first: the hand-off receives the element with its
texts already resolved and a `BindingElement` id when any token matched. -/
theorem c8_marker_boundary {obs : List (String × String)}
    {t idA : String} {a : List (String × String)} {c rest : Dom}
    {vals : List (Option String)} {st : DiscSt} {out : Dom} {st' : DiscSt}
    (hmark : (lookupA "data-component" a).isSome = true)
    (hrun : processSiblings obs (Dom.elemCons t idA a c rest) vals st
      = .ok (out, st')) :
    ∃ newVals bid s1 restOut,
      scanOwnTexts obs c 0 none st.scan = .ok (newVals, bid, s1) ∧
      out = Dom.elemCons t (elemIdAfter idA bid) a (substTexts c newVals)
        restOut ∧
      Dom.elemCons t (elemIdAfter idA bid) a (substTexts c newVals) Dom.nil
        ∈ st'.subcomponents ∧
      elemsOf (substTexts c newVals) = elemsOf c := by
  simp only [processSiblings] at hrun
  cases hscan : scanOwnTexts obs c 0 none st.scan with
  | error e => rw [hscan] at hrun; exact absurd hrun (by simp)
  | ok r1 =>
      obtain ⟨newVals, bid, s1⟩ := r1
      simp only [hscan] at hrun
      rw [if_pos hmark] at hrun
      cases hrest : processSiblings obs rest vals
          { scan := s1, subcomponents := st.subcomponents ++
              [Dom.elemCons t (elemIdAfter idA bid) a
                (substTexts c newVals) Dom.nil] } with
      | error e => rw [hrest] at hrun; exact absurd hrun (by simp [Except.map])
      | ok r0 =>
          rw [hrest] at hrun
          simp only [Except.map, Except.ok.injEq, Prod.mk.injEq] at hrun
          refine ⟨newVals, bid, s1, r0.1, rfl, hrun.1.symm, ?_,
            elemsOf_substTexts c newVals⟩
          rw [← hrun.2]
          refine processSiblings_subcomp_mono rest vals _ r0.1 r0.2
            (by rw [hrest]) _ ?_
          exact List.mem_append_right _ (List.mem_singleton_self _)


/-- Claim C8 counterexample: discovering a tree whose only `{{x}}` token
sits in a direct text child of a `data-component` element *does* register a
text binding for `x` — the element is scanned before the hand-off, which
the claim denies.  (The grandchild's `{{y}}` registers nothing: `y` is not
even an observable here, so entering the grandchild would have faulted —
the recursion really does stop at the boundary.) -/
theorem c8_marker_scanned_counterexample :
    (processElements [("x", "V")] "div" "" [] c8Kids ⟨⟨0, []⟩, []⟩).map
        (fun r => (lookupA "x" r.2.scan.textBindings,
                   lookupA "y" r.2.scan.textBindings,
                   r.2.subcomponents.length))
      = .ok (some [⟨0, 0, "x", "{{x}}"⟩], none, 1) := rfl

/-- Witness for `c8_marker_boundary` at the C8 scenario span. -/
theorem c8_marker_boundary_witness :
    ∃ newVals bid s1 restOut,
      scanOwnTexts [("x", "V")] c8SpanKids 0 none ⟨0, []⟩
        = .ok (newVals, bid, s1) ∧
      c8Out = Dom.elemCons "span" (elemIdAfter "" bid)
        [("data-component", "TestComp")] (substTexts c8SpanKids newVals)
        restOut ∧
      Dom.elemCons "span" (elemIdAfter "" bid)
        [("data-component", "TestComp")] (substTexts c8SpanKids newVals)
        Dom.nil ∈ c8OutSt.subcomponents ∧
      elemsOf (substTexts c8SpanKids newVals) = elemsOf c8SpanKids :=
  c8_marker_boundary
    (show (lookupA "data-component" [("data-component", "TestComp")]).isSome
        = true from rfl)
    (show processSiblings [("x", "V")]
        (Dom.elemCons "span" "" [("data-component", "TestComp")] c8SpanKids
          Dom.nil) [] ⟨⟨0, []⟩, []⟩ = .ok (c8Out, c8OutSt) from rfl)

/-! ### Claim theorems: C4, C5, C10 -/

/-- Claim C4 (code bug evaluated): with two `TextBindingRecord`s registered
for path `a` — element ids `0` and `1`, both elements present with one text
child each — a change notification for `a` re-renders only the first
record's text node; `old1` survives although `resolveBindingText` would
produce `NEW`.  The compiled `for (var i ...)` loops of
`triggerBindingUpdate` share a single function-scoped `i`, so after the
first record the outer index jumps to `childNodes.length + 1 = 2` and the
second record is never located, contradicting the claim that every record
for the path is re-rendered. -/
theorem c4_trigger_skips_second_record :
    triggerBindingUpdate [("a", "NEW")]
      [("a", [⟨0, 0, "a", "{{a}}"⟩, ⟨1, 0, "a", "{{a}}"⟩])] "a" 10
      (.elemCons "div" "BindingElement0" [] (.textCons "old0" .nil)
        (.elemCons "div" "BindingElement1" [] (.textCons "old1" .nil) .nil))
    = .ok (.elemCons "div" "BindingElement0" [] (.textCons "NEW" .nil)
        (.elemCons "div" "BindingElement1" [] (.textCons "old1" .nil) .nil))
    ∧ resolveBindingText [("a", "NEW")] "{{a}}" = some "NEW"
    ∧ ("old1" : String) ≠ "NEW" := by
  refine ⟨rfl, rfl, by decide⟩

/-- Claim C5 counterexample: one record for path `a` whose owner element
(id `BindingElement7`) is absent from the component's DOM.  Resolution is
not a silent no-op: `querySelector` yields `null` and reading
`null.childNodes` raises a `TypeError`. -/
theorem c5_stale_lookup_counterexample :
    triggerBindingUpdate [("a", "NEW")] [("a", [⟨7, 0, "a", "{{a}}"⟩])] "a"
      10 (.elemCons "div" "" [] (.textCons "x" .nil) .nil) = .error .typeError := rfl

/-- Claim C5 as amended: when a change notification arrives and the first
record's owner element is no longer present in the component's DOM,
resolution raises a `TypeError` (the `null` returned by `querySelector` is
dereferenced); nothing is patched and the error propagates — it is not a
silent no-op. -/
theorem c5_stale_lookup_throws (obs : List (String × String))
    (tb : List (String × List TextBindingInfo)) (path : String) (fuel : Nat)
    (dom : Dom) (b : TextBindingInfo) (rest : List TextBindingInfo)
    (hb : lookupA path tb = some (b :: rest))
    (hmiss : applyB obs b dom = none) (hf : 0 < fuel) :
    triggerBindingUpdate obs tb path fuel dom = .error .typeError := by
  unfold triggerBindingUpdate
  rw [hb]
  match fuel, hf with
  | f + 1, _ =>
    unfold triggerLoop
    simp [hmiss]

/-- Witness for `c5_stale_lookup_throws` at the counterexample input. -/
theorem c5_stale_lookup_throws_witness :
    triggerBindingUpdate [("a", "NEW")] [("a", [⟨7, 0, "a", "{{a}}"⟩])] "a"
      10 (.elemCons "div" "" [] (.textCons "x" .nil) .nil) = .error .typeError :=
  c5_stale_lookup_throws [("a", "NEW")] [("a", [⟨7, 0, "a", "{{a}}"⟩])] "a"
    10 (.elemCons "div" "" [] (.textCons "x" .nil) .nil) ⟨7, 0, "a", "{{a}}"⟩ [] rfl rfl
    (by decide)

/-- Claim C10: `Component.show()` on a component that is already showing,
and `Component.hide()` on one that is not, are complete no-ops — the
component state (including `rootHtmlElement` and `isShowing`) and the DOM
are returned unchanged; hence each is idempotent. -/
theorem c10_show_hide_noop (c : ComponentView) (doc : List (Nat × List Nat))
    (repl : Option Nat) :
    (c.isShowing = true → showComponent c doc repl = .ok (c, doc)) ∧
    (c.isShowing = false → hideComponent c doc = .ok (c, doc)) := by
  constructor <;> intro h <;> simp [showComponent, hideComponent, h]

/-- Witness for `c10_show_hide_noop` at concrete states. -/
theorem c10_show_hide_noop_witness :
    showComponent ⟨true, 5, none⟩ [(0, [5])] none = .ok (⟨true, 5, none⟩, [(0, [5])])
    ∧ hideComponent ⟨false, 5, none⟩ [(0, [])] = .ok (⟨false, 5, none⟩, [(0, [])]) :=
  ⟨(c10_show_hide_noop ⟨true, 5, none⟩ [(0, [5])] none).1 rfl,
   (c10_show_hide_noop ⟨false, 5, none⟩ [(0, [])]  none).2 rfl⟩

/-! ### Idempotence of text resolution (C9)

A successful `triggerBindingUpdate` pass only overwrites text-node values,
and overwrites them with values that depend on the stored template strings
and the observable environment — never on the DOM's current text.  Running
the same pass again therefore finds the same elements (structure and ids
are untouched), follows the same (bugged) index sequence, and writes the
same values: the DOM is already a fixed point.

The development works with `Stable`-style statements: `applyB` leaving a
forest unchanged, preserved by the other patches of the run.  The only
wellformedness needed is `RecordsCompat`: two records of the same path list
that name the same owner id and text-node index carry the same stored
template (true of any registry built by discovery, where all records of one
text node share its original `nodeValue`). -/


theorem patchChildren_elim_textCons_hit {obs : List (String × String)}
    {b : TextBindingInfo} {v : String} {rest : Dom} {k : Nat} {c2 : Dom}
    (hk : k = b.textNodeIndex)
    (h : patchChildren obs b (.textCons v rest) k = .ok c2) :
    ∃ v' r, resolveBindingText obs b.bindingText = some v' ∧
      patchChildren obs b rest (k + 1) = .ok r ∧ c2 = .textCons v' r := by
  simp only [patchChildren, if_pos hk] at h
  cases hres : resolveBindingText obs b.bindingText with
  | none => rw [hres] at h; exact absurd h (by simp)
  | some v' =>
      rw [hres] at h
      cases hr : patchChildren obs b rest (k + 1) with
      | error e => rw [hr] at h; exact absurd h (by simp [Except.map])
      | ok r =>
          rw [hr] at h
          simp only [Except.map, Except.ok.injEq] at h
          exact ⟨v', r, rfl, rfl, h.symm⟩

theorem patchChildren_elim_textCons_miss {obs : List (String × String)}
    {b : TextBindingInfo} {v : String} {rest : Dom} {k : Nat} {c2 : Dom}
    (hk : ¬ k = b.textNodeIndex)
    (h : patchChildren obs b (.textCons v rest) k = .ok c2) :
    ∃ r, patchChildren obs b rest (k + 1) = .ok r ∧ c2 = .textCons v r := by
  simp only [patchChildren, if_neg hk] at h
  cases hr : patchChildren obs b rest (k + 1) with
  | error e => rw [hr] at h; exact absurd h (by simp [Except.map])
  | ok r =>
      rw [hr] at h
      simp only [Except.map, Except.ok.injEq] at h
      exact ⟨r, rfl, h.symm⟩

theorem patchChildren_elim_elemCons {obs : List (String × String)}
    {b : TextBindingInfo} {t idA : String} {a : List (String × String)}
    {ch rest : Dom} {k : Nat} {c2 : Dom}
    (h : patchChildren obs b (.elemCons t idA a ch rest) k = .ok c2) :
    ∃ r, patchChildren obs b rest k = .ok r ∧ c2 = .elemCons t idA a ch r := by
  simp only [patchChildren] at h
  cases hr : patchChildren obs b rest k with
  | error e => rw [hr] at h; exact absurd h (by simp [Except.map])
  | ok r =>
      rw [hr] at h
      simp only [Except.map, Except.ok.injEq] at h
      exact ⟨r, rfl, h.symm⟩

theorem patchChildren_intro_textCons_hit {obs : List (String × String)}
    {b : TextBindingInfo} {v v' : String} {rest r : Dom} {k : Nat}
    (hk : k = b.textNodeIndex)
    (hres : resolveBindingText obs b.bindingText = some v')
    (hr : patchChildren obs b rest (k + 1) = .ok r) :
    patchChildren obs b (.textCons v rest) k = .ok (.textCons v' r) := by
  simp [patchChildren, if_pos hk, hres, hr, Except.map]

theorem patchChildren_intro_textCons_miss {obs : List (String × String)}
    {b : TextBindingInfo} {v : String} {rest r : Dom} {k : Nat}
    (hk : ¬ k = b.textNodeIndex)
    (hr : patchChildren obs b rest (k + 1) = .ok r) :
    patchChildren obs b (.textCons v rest) k = .ok (.textCons v r) := by
  simp [patchChildren, if_neg hk, hr, Except.map]

theorem patchChildren_intro_elemCons {obs : List (String × String)}
    {b : TextBindingInfo} {t idA : String} {a : List (String × String)}
    {ch rest r : Dom} {k : Nat}
    (hr : patchChildren obs b rest k = .ok r) :
    patchChildren obs b (.elemCons t idA a ch rest) k
      = .ok (.elemCons t idA a ch r) := by
  simp [patchChildren, hr, Except.map]

theorem applyB_elim_textCons {obs : List (String × String)}
    {b : TextBindingInfo} {v : String} {rest : Dom} {d2 : Dom} {n : Nat}
    (h : applyB obs b (.textCons v rest) = some (.ok (d2, n))) :
    ∃ r, applyB obs b rest = some (.ok (r, n)) ∧ d2 = .textCons v r := by
  simp only [applyB] at h
  cases hr : applyB obs b rest with
  | none => rw [hr] at h; exact absurd h (by simp)
  | some rr =>
      rw [hr] at h
      cases rr with
      | error e => exact absurd h (by simp [Except.map])
      | ok p =>
          simp only [Except.map, Option.map, Except.ok.injEq,
            Option.some.injEq, Prod.mk.injEq] at h
          refine ⟨p.1, ?_, h.1.symm⟩
          rw [← h.2]

theorem applyB_intro_textCons {obs : List (String × String)}
    {b : TextBindingInfo} {v : String} {rest r : Dom} {n : Nat}
    (hr : applyB obs b rest = some (.ok (r, n))) :
    applyB obs b (.textCons v rest) = some (.ok (.textCons v r, n)) := by
  simp [applyB, hr, Except.map]

theorem applyB_elim_elemCons {obs : List (String × String)}
    {b : TextBindingInfo} {t idA : String} {a : List (String × String)}
    {ch rest : Dom} {d2 : Dom} {n : Nat}
    (h : applyB obs b (.elemCons t idA a ch rest) = some (.ok (d2, n))) :
    (idA = targetIdOf b ∧ ∃ c', patchChildren obs b ch 0 = .ok c' ∧
        d2 = .elemCons t idA a c' rest ∧ n = domLen ch) ∨
    (¬ idA = targetIdOf b ∧ ∃ c', applyB obs b ch = some (.ok (c', n)) ∧
        d2 = .elemCons t idA a c' rest) ∨
    (¬ idA = targetIdOf b ∧ applyB obs b ch = none ∧
        ∃ r', applyB obs b rest = some (.ok (r', n)) ∧
          d2 = .elemCons t idA a ch r') := by
  by_cases hi : idA = targetIdOf b
  · refine Or.inl ⟨hi, ?_⟩
    simp only [applyB, if_pos hi] at h
    cases hp : patchChildren obs b ch 0 with
    | error e => rw [hp] at h; exact absurd h (by simp [Except.map])
    | ok c' =>
        rw [hp] at h
        simp only [Except.map, Option.some.injEq, Except.ok.injEq,
          Prod.mk.injEq] at h
        exact ⟨c', rfl, h.1.symm, h.2.symm⟩
  · simp only [applyB, if_neg hi] at h
    cases hc : applyB obs b ch with
    | some rr =>
        rw [hc] at h
        cases rr with
        | error e => exact absurd h (by simp [Except.map])
        | ok p =>
            simp only [Except.map, Option.some.injEq, Except.ok.injEq,
              Prod.mk.injEq] at h
            refine Or.inr (Or.inl ⟨hi, p.1, ?_, h.1.symm⟩)
            rw [← h.2]
    | none =>
        rw [hc] at h
        cases hr : applyB obs b rest with
        | none => rw [hr] at h; exact absurd h (by simp)
        | some rr =>
            rw [hr] at h
            cases rr with
            | error e => exact absurd h (by simp [Except.map])
            | ok p =>
                simp only [Except.map, Option.map, Except.ok.injEq,
                  Option.some.injEq, Prod.mk.injEq] at h
                refine Or.inr (Or.inr ⟨hi, rfl, p.1, ?_, h.1.symm⟩)
                rw [← h.2]

theorem applyB_intro_elemCons_hit {obs : List (String × String)}
    {b : TextBindingInfo} {t idA : String} {a : List (String × String)}
    {ch rest c' : Dom} (hi : idA = targetIdOf b)
    (hp : patchChildren obs b ch 0 = .ok c') :
    applyB obs b (.elemCons t idA a ch rest)
      = some (.ok (.elemCons t idA a c' rest, domLen ch)) := by
  simp [applyB, if_pos hi, hp, Except.map]

theorem applyB_intro_elemCons_inc {obs : List (String × String)}
    {b : TextBindingInfo} {t idA : String} {a : List (String × String)}
    {ch rest c' : Dom} {n : Nat} (hi : ¬ idA = targetIdOf b)
    (hc : applyB obs b ch = some (.ok (c', n))) :
    applyB obs b (.elemCons t idA a ch rest)
      = some (.ok (.elemCons t idA a c' rest, n)) := by
  simp [applyB, if_neg hi, hc, Except.map]

theorem applyB_intro_elemCons_inr {obs : List (String × String)}
    {b : TextBindingInfo} {t idA : String} {a : List (String × String)}
    {ch rest r' : Dom} {n : Nat} (hi : ¬ idA = targetIdOf b)
    (hc : applyB obs b ch = none)
    (hr : applyB obs b rest = some (.ok (r', n))) :
    applyB obs b (.elemCons t idA a ch rest)
      = some (.ok (.elemCons t idA a ch r', n)) := by
  simp [applyB, if_neg hi, hc, hr, Except.map]

theorem applyB_none_textCons_elim {obs : List (String × String)}
    {b : TextBindingInfo} {v : String} {rest : Dom}
    (h : applyB obs b (.textCons v rest) = none) :
    applyB obs b rest = none := by
  simp only [applyB] at h
  cases hr : applyB obs b rest with
  | none => rfl
  | some rr => rw [hr] at h; exact absurd h (by simp)

theorem applyB_none_elemCons_elim {obs : List (String × String)}
    {b : TextBindingInfo} {t idA : String} {a : List (String × String)}
    {ch rest : Dom}
    (h : applyB obs b (.elemCons t idA a ch rest) = none) :
    ¬ idA = targetIdOf b ∧ applyB obs b ch = none ∧
      applyB obs b rest = none := by
  by_cases hi : idA = targetIdOf b
  · rw [applyB, if_pos hi] at h
    exact absurd h (by simp)
  · refine ⟨hi, ?_, ?_⟩ <;> rw [applyB, if_neg hi] at h
    · cases hc : applyB obs b ch with
      | none => rfl
      | some rr => rw [hc] at h; exact absurd h (by simp)
    · cases hc : applyB obs b ch with
      | none =>
          rw [hc] at h
          cases hr : applyB obs b rest with
          | none => rfl
          | some rr => rw [hr] at h; exact absurd h (by simp)
      | some rr => rw [hc] at h; exact absurd h (by simp)

theorem applyB_none_elemCons_intro {obs : List (String × String)}
    {b : TextBindingInfo} {t idA : String} {a : List (String × String)}
    {ch rest : Dom} (hi : ¬ idA = targetIdOf b)
    (hc : applyB obs b ch = none) (hr : applyB obs b rest = none) :
    applyB obs b (.elemCons t idA a ch rest) = none := by
  simp [applyB, if_neg hi, hc, hr]

theorem patchChildren_domLen {obs : List (String × String)}
    {b : TextBindingInfo} :
    ∀ (c : Dom) (k : Nat) (c2 : Dom), patchChildren obs b c k = .ok c2 →
      domLen c2 = domLen c := by
  intro c
  induction c with
  | nil =>
      intro k c2 h
      simp only [patchChildren, Except.ok.injEq] at h
      rw [← h]
  | textCons v rest ih =>
      intro k c2 h
      by_cases hk : k = b.textNodeIndex
      · obtain ⟨v', r, _, hr, rfl⟩ := patchChildren_elim_textCons_hit hk h
        simp [domLen, ih _ _ hr]
      · obtain ⟨r, hr, rfl⟩ := patchChildren_elim_textCons_miss hk h
        simp [domLen, ih _ _ hr]
  | elemCons t idA a ch rest ihc ihrest =>
      intro k c2 h
      obtain ⟨r, hr, rfl⟩ := patchChildren_elim_elemCons h
      simp [domLen, ihrest _ _ hr]

/-- One `triggerBindingUpdate` step already leaves its own element at a
fixed point: patching the same record again changes nothing. -/
theorem patchChildren_idem {obs : List (String × String)}
    {b : TextBindingInfo} :
    ∀ (c : Dom) (k : Nat) (c2 : Dom), patchChildren obs b c k = .ok c2 →
      patchChildren obs b c2 k = .ok c2 := by
  intro c
  induction c with
  | nil =>
      intro k c2 h
      simp only [patchChildren, Except.ok.injEq] at h
      rw [← h]
      rfl
  | textCons v rest ih =>
      intro k c2 h
      by_cases hk : k = b.textNodeIndex
      · obtain ⟨v', r, hres, hr, rfl⟩ := patchChildren_elim_textCons_hit hk h
        exact patchChildren_intro_textCons_hit hk hres (ih _ _ hr)
      · obtain ⟨r, hr, rfl⟩ := patchChildren_elim_textCons_miss hk h
        exact patchChildren_intro_textCons_miss hk (ih _ _ hr)
  | elemCons t idA a ch rest ihc ihrest =>
      intro k c2 h
      obtain ⟨r, hr, rfl⟩ := patchChildren_elim_elemCons h
      exact patchChildren_intro_elemCons (ihrest _ _ hr)

/-- A fixed point of `b`'s patch stays a fixed point after a compatible
record `b'` patches the same element's children: a write to the same text
index carries the same value (same stored template), a write to a
different index does not touch `b`'s node. -/
theorem patchChildren_stable_patch {obs : List (String × String)}
    {b b' : TextBindingInfo}
    (hcp : b.textNodeIndex = b'.textNodeIndex →
      b.bindingText = b'.bindingText) :
    ∀ (c : Dom) (k : Nat) (c2 : Dom),
      patchChildren obs b c k = .ok c →
      patchChildren obs b' c k = .ok c2 →
      patchChildren obs b c2 k = .ok c2 := by
  intro c
  induction c with
  | nil =>
      intro k c2 _ h'
      simp only [patchChildren, Except.ok.injEq] at h'
      rw [← h']
      rfl
  | textCons v rest ih =>
      intro k c2 hb hb'
      by_cases hk' : k = b'.textNodeIndex
      · obtain ⟨w, r2, hres', hr2, rfl⟩ :=
          patchChildren_elim_textCons_hit hk' hb'
        by_cases hk : k = b.textNodeIndex
        · obtain ⟨vb, rb, hresb, hrb, heq⟩ :=
            patchChildren_elim_textCons_hit hk hb
          cases heq
          have htx : b.bindingText = b'.bindingText :=
            hcp (hk ▸ hk' : b.textNodeIndex = b'.textNodeIndex)
          have hw : w = v := by
            rw [htx] at hresb
            rw [hresb] at hres'
            exact (Option.some.inj hres').symm
          subst hw
          exact patchChildren_intro_textCons_hit hk hresb
            (ih (k + 1) r2 hrb hr2)
        · obtain ⟨rb, hrb, heq⟩ := patchChildren_elim_textCons_miss hk hb
          cases heq
          exact patchChildren_intro_textCons_miss hk
            (ih (k + 1) r2 hrb hr2)
      · obtain ⟨r2, hr2, rfl⟩ := patchChildren_elim_textCons_miss hk' hb'
        by_cases hk : k = b.textNodeIndex
        · obtain ⟨vb, rb, hresb, hrb, heq⟩ :=
            patchChildren_elim_textCons_hit hk hb
          cases heq
          exact patchChildren_intro_textCons_hit hk hresb
            (ih (k + 1) r2 hrb hr2)
        · obtain ⟨rb, hrb, heq⟩ := patchChildren_elim_textCons_miss hk hb
          cases heq
          exact patchChildren_intro_textCons_miss hk
            (ih (k + 1) r2 hrb hr2)
  | elemCons t idA a ch rest ihc ihrest =>
      intro k c2 hb hb'
      obtain ⟨rb, hrb, heqb⟩ := patchChildren_elim_elemCons hb
      cases heqb
      obtain ⟨r2, hr2, rfl⟩ := patchChildren_elim_elemCons hb'
      exact patchChildren_intro_elemCons (ihrest k r2 hrb hr2)

/-- A fixed point of `b`'s patch stays one after another record's full
`applyB` step: that step never changes the element's *direct* text
children (it rewrites text only inside some element's child list, and
elements of this list pass through whole). -/
theorem patchChildren_stable_applyB {obs : List (String × String)}
    {b b' : TextBindingInfo} :
    ∀ (c : Dom) (k : Nat) (c2 : Dom) (m : Nat),
      patchChildren obs b c k = .ok c →
      applyB obs b' c = some (.ok (c2, m)) →
      patchChildren obs b c2 k = .ok c2 := by
  intro c
  induction c with
  | nil =>
      intro k c2 m _ h'
      exact absurd h' (by simp [applyB])
  | textCons v rest ih =>
      intro k c2 m hb hb'
      obtain ⟨r2, hr2, rfl⟩ := applyB_elim_textCons hb'
      by_cases hk : k = b.textNodeIndex
      · obtain ⟨vb, rb, hresb, hrb, heq⟩ :=
          patchChildren_elim_textCons_hit hk hb
        cases heq
        exact patchChildren_intro_textCons_hit hk hresb
          (ih (k + 1) r2 m hrb hr2)
      · obtain ⟨rb, hrb, heq⟩ := patchChildren_elim_textCons_miss hk hb
        cases heq
        exact patchChildren_intro_textCons_miss hk (ih (k + 1) r2 m hrb hr2)
  | elemCons t idA a ch rest ihc ihrest =>
      intro k c2 m hb hb'
      obtain ⟨rb, hrb, heqb⟩ := patchChildren_elim_elemCons hb
      cases heqb
      rcases applyB_elim_elemCons hb' with
        ⟨hi, c', hp, rfl, hn⟩ | ⟨hi, c', hc, rfl⟩ | ⟨hi, hc, r', hr, rfl⟩
      · exact patchChildren_intro_elemCons hrb
      · exact patchChildren_intro_elemCons hrb
      · exact patchChildren_intro_elemCons (ihrest k r' m hrb hr)

/-- A forest on which `b`'s `applyB` is a fixed point stays one after a
compatible patch of some element's children at this level: the patch only
rewrites text values, and `b`'s walk is driven by element structure. -/
theorem applyB_stable_patch {obs : List (String × String)}
    {b b' : TextBindingInfo} :
    ∀ (c : Dom) (n : Nat) (k : Nat) (c2 : Dom),
      applyB obs b c = some (.ok (c, n)) →
      patchChildren obs b' c k = .ok c2 →
      applyB obs b c2 = some (.ok (c2, n)) := by
  intro c
  induction c with
  | nil =>
      intro n k c2 hb _
      exact absurd hb (by simp [applyB])
  | textCons v rest ih =>
      intro n k c2 hb hb'
      obtain ⟨r, hr, heq⟩ := applyB_elim_textCons hb
      cases heq
      by_cases hk' : k = b'.textNodeIndex
      · obtain ⟨w, r2, hres', hr2, rfl⟩ :=
          patchChildren_elim_textCons_hit hk' hb'
        exact applyB_intro_textCons (ih n (k + 1) r2 hr hr2)
      · obtain ⟨r2, hr2, rfl⟩ := patchChildren_elim_textCons_miss hk' hb'
        exact applyB_intro_textCons (ih n (k + 1) r2 hr hr2)
  | elemCons t idA a ch rest ihc ihrest =>
      intro n k c2 hb hb'
      obtain ⟨r2, hr2, rfl⟩ := patchChildren_elim_elemCons hb'
      rcases applyB_elim_elemCons hb with
        ⟨hi, c', hp, heq, hn⟩ | ⟨hi, c', hc, heq⟩ | ⟨hi, hc, r', hr, heq⟩
      · cases heq
        rw [hn]
        exact applyB_intro_elemCons_hit hi hp
      · cases heq
        exact applyB_intro_elemCons_inc hi hc
      · cases heq
        exact applyB_intro_elemCons_inr hi hc (ihrest n k r2 hr hr2)

/-- An element id absent from a forest stays absent after a patch. -/
theorem applyB_none_patch {obs : List (String × String)}
    {b b' : TextBindingInfo} :
    ∀ (c : Dom) (k : Nat) (c2 : Dom),
      applyB obs b c = none → patchChildren obs b' c k = .ok c2 →
      applyB obs b c2 = none := by
  intro c
  induction c with
  | nil =>
      intro k c2 _ h'
      simp only [patchChildren, Except.ok.injEq] at h'
      rw [← h']
      rfl
  | textCons v rest ih =>
      intro k c2 hb hb'
      have hbn := applyB_none_textCons_elim hb
      by_cases hk' : k = b'.textNodeIndex
      · obtain ⟨w, r2, _, hr2, rfl⟩ :=
          patchChildren_elim_textCons_hit hk' hb'
        simp [applyB, ih (k + 1) r2 hbn hr2]
      · obtain ⟨r2, hr2, rfl⟩ := patchChildren_elim_textCons_miss hk' hb'
        simp [applyB, ih (k + 1) r2 hbn hr2]
  | elemCons t idA a ch rest ihc ihrest =>
      intro k c2 hb hb'
      obtain ⟨hi, hcn, hrn⟩ := applyB_none_elemCons_elim hb
      obtain ⟨r2, hr2, rfl⟩ := patchChildren_elim_elemCons hb'
      exact applyB_none_elemCons_intro hi hcn (ihrest k r2 hrn hr2)

/-- An element id absent from a forest stays absent after another record's
`applyB` step. -/
theorem applyB_none_applyB {obs : List (String × String)}
    {b b' : TextBindingInfo} :
    ∀ (c : Dom) (c2 : Dom) (m : Nat),
      applyB obs b c = none → applyB obs b' c = some (.ok (c2, m)) →
      applyB obs b c2 = none := by
  intro c
  induction c with
  | nil =>
      intro c2 m _ h'
      exact absurd h' (by simp [applyB])
  | textCons v rest ih =>
      intro c2 m hb hb'
      have hbn := applyB_none_textCons_elim hb
      obtain ⟨r2, hr2, rfl⟩ := applyB_elim_textCons hb'
      simp [applyB, ih r2 m hbn hr2]
  | elemCons t idA a ch rest ihc ihrest =>
      intro c2 m hb hb'
      obtain ⟨hi, hcn, hrn⟩ := applyB_none_elemCons_elim hb
      rcases applyB_elim_elemCons hb' with
        ⟨hi', c', hp, rfl, hn⟩ | ⟨hi', c', hc, rfl⟩ | ⟨hi', hc, r', hr, rfl⟩
      · exact applyB_none_elemCons_intro hi
          (applyB_none_patch ch 0 c' hcn hp) hrn
      · exact applyB_none_elemCons_intro hi (ihc c' m hcn hc) hrn
      · exact applyB_none_elemCons_intro hi hcn (ihrest r' m hrn hr)

theorem applyB_domLen {obs : List (String × String)}
    {b : TextBindingInfo} :
    ∀ (d : Dom) (d2 : Dom) (n : Nat),
      applyB obs b d = some (.ok (d2, n)) → domLen d2 = domLen d := by
  intro d
  induction d with
  | nil =>
      intro d2 n h
      exact absurd h (by simp [applyB])
  | textCons v rest ih =>
      intro d2 n h
      obtain ⟨r, hr, rfl⟩ := applyB_elim_textCons h
      simp [domLen, ih _ _ hr]
  | elemCons t idA a ch rest ihc ihrest =>
      intro d2 n h
      rcases applyB_elim_elemCons h with
        ⟨hi, c', hp, rfl, hn⟩ | ⟨hi, c', hc, rfl⟩ | ⟨hi, hc, r', hr, rfl⟩
      · simp [domLen]
      · simp [domLen]
      · simp [domLen, ihrest _ _ hr]

/-- One `triggerBindingUpdate` step is idempotent: its output forest is a
fixed point of the same record, with the same `childNodes.length` left in
the shared loop variable. -/
theorem applyB_idem {obs : List (String × String)} {b : TextBindingInfo} :
    ∀ (d : Dom) (d2 : Dom) (n : Nat),
      applyB obs b d = some (.ok (d2, n)) →
      applyB obs b d2 = some (.ok (d2, n)) := by
  intro d
  induction d with
  | nil =>
      intro d2 n h
      exact absurd h (by simp [applyB])
  | textCons v rest ih =>
      intro d2 n h
      obtain ⟨r, hr, rfl⟩ := applyB_elim_textCons h
      exact applyB_intro_textCons (ih r n hr)
  | elemCons t idA a ch rest ihc ihrest =>
      intro d2 n h
      rcases applyB_elim_elemCons h with
        ⟨hi, c', hp, rfl, hn⟩ | ⟨hi, c', hc, rfl⟩ | ⟨hi, hc, r', hr, rfl⟩
      · have hlen : domLen c' = domLen ch := patchChildren_domLen ch 0 c' hp
        rw [hn, ← hlen]
        exact applyB_intro_elemCons_hit hi (patchChildren_idem ch 0 c' hp)
      · exact applyB_intro_elemCons_inc hi (ihc c' n hc)
      · exact applyB_intro_elemCons_inr hi hc (ihrest r' n hr)

/-- The heart of idempotence: a forest that is a fixed point of record `b`
stays one (with the same reported length) after a *compatible* record
`b'` runs its step. -/
theorem applyB_stable_cross {obs : List (String × String)}
    {b b' : TextBindingInfo} (hcp : CompatPair b b') :
    ∀ (d : Dom) (n : Nat) (d2 : Dom) (m : Nat),
      applyB obs b d = some (.ok (d, n)) →
      applyB obs b' d = some (.ok (d2, m)) →
      applyB obs b d2 = some (.ok (d2, n)) := by
  intro d
  induction d with
  | nil =>
      intro n d2 m hb _
      exact absurd hb (by simp [applyB])
  | textCons v rest ih =>
      intro n d2 m hb hb'
      obtain ⟨r, hr, heq⟩ := applyB_elim_textCons hb
      cases heq
      obtain ⟨r2, hr2, rfl⟩ := applyB_elim_textCons hb'
      exact applyB_intro_textCons (ih n r2 m hr hr2)
  | elemCons t idA a ch rest ihc ihrest =>
      intro n d2 m hb hb'
      rcases applyB_elim_elemCons hb with
        ⟨hib, c', hpb, heqb, hnb⟩ | ⟨hib, c', hcb, heqb⟩ |
        ⟨hib, hcbn, r', hrb, heqb⟩
      · cases heqb
        rcases applyB_elim_elemCons hb' with
          ⟨hib', c2', hpb', rfl, hn'⟩ | ⟨hib', c2', hcb', rfl⟩ |
          ⟨hib', hcn', r2', hrb', rfl⟩
        · have htgt : targetIdOf b = targetIdOf b' := hib.symm.trans hib'
          have hstab : patchChildren obs b c2' 0 = .ok c2' :=
            patchChildren_stable_patch (hcp htgt) ch 0 c2' hpb hpb'
          have hlen : domLen c2' = domLen ch :=
            patchChildren_domLen ch 0 c2' hpb'
          rw [hnb, ← hlen]
          exact applyB_intro_elemCons_hit hib hstab
        · have hstab : patchChildren obs b c2' 0 = .ok c2' :=
            patchChildren_stable_applyB ch 0 c2' m hpb hcb'
          have hlen : domLen c2' = domLen ch := applyB_domLen ch c2' m hcb'
          rw [hnb, ← hlen]
          exact applyB_intro_elemCons_hit hib hstab
        · rw [hnb]
          exact applyB_intro_elemCons_hit hib hpb
      · cases heqb
        rcases applyB_elim_elemCons hb' with
          ⟨hib', c2', hpb', rfl, hn'⟩ | ⟨hib', c2', hcb', rfl⟩ |
          ⟨hib', hcn', r2', hrb', rfl⟩
        · exact applyB_intro_elemCons_inc hib
            (applyB_stable_patch ch n 0 c2' hcb hpb')
        · exact applyB_intro_elemCons_inc hib (ihc n c2' m hcb hcb')
        · exact applyB_intro_elemCons_inc hib hcb
      · cases heqb
        rcases applyB_elim_elemCons hb' with
          ⟨hib', c2', hpb', rfl, hn'⟩ | ⟨hib', c2', hcb', rfl⟩ |
          ⟨hib', hcn', r2', hrb', rfl⟩
        · exact applyB_intro_elemCons_inr hib
            (applyB_none_patch ch 0 c2' hcbn hpb') hrb
        · exact applyB_intro_elemCons_inr hib
            (applyB_none_applyB ch c2' m hcbn hcb') hrb
        · exact applyB_intro_elemCons_inr hib hcbn (ihrest n r2' m hrb hrb')

/-- A forest that is a fixed point of a record compatible with every
record of the list stays a fixed point across a whole (successful)
`triggerBindingUpdate` loop. -/
theorem triggerLoop_preserves_stable {obs : List (String × String)}
    {bindings : List TextBindingInfo} {b : TextBindingInfo}
    (hcs : ∀ b' ∈ bindings, CompatPair b b') :
    ∀ (fuel i : Nat) (d e : Dom) (n : Nat),
      triggerLoop obs bindings fuel i d = .ok e →
      applyB obs b d = some (.ok (d, n)) →
      applyB obs b e = some (.ok (e, n)) := by
  intro fuel
  induction fuel with
  | zero =>
      intro i d e n h _
      exact absurd h (by simp [triggerLoop])
  | succ f ih =>
      intro i d e n h hstable
      simp only [triggerLoop] at h
      cases hbi : bindings[i]? with
      | none =>
          rw [hbi] at h
          simp only [Except.ok.injEq] at h
          rw [← h]
          exact hstable
      | some bi =>
          simp only [hbi] at h
          cases hap : applyB obs bi d with
          | none => simp only [hap] at h; exact absurd h (by simp)
          | some rr =>
              cases rr with
              | error e' => simp only [hap] at h; exact absurd h (by simp)
              | ok p =>
                  obtain ⟨d', nn⟩ := p
                  simp only [hap] at h
                  have hbimem : bi ∈ bindings := by
                    have := List.getElem?_eq_some.mp hbi
                    obtain ⟨hlt, hget⟩ := this
                    exact hget ▸ List.getElem_mem _
                  have hst' := applyB_stable_cross (hcs bi hbimem) d n d' nn
                    hstable hap
                  exact ih (nn + 1) d' e n h hst'

/-- A successful `triggerBindingUpdate` loop leaves a forest on which the
very same loop (same fuel, same starting index) is the identity: the
control flow — including the shared-`var i` index jumps — is reproduced
exactly, and every write re-deposits the value already present. -/
theorem triggerLoop_idem {obs : List (String × String)}
    {bindings : List TextBindingInfo} (hcompat : RecordsCompat bindings) :
    ∀ (fuel i : Nat) (d e : Dom),
      triggerLoop obs bindings fuel i d = .ok e →
      triggerLoop obs bindings fuel i e = .ok e := by
  intro fuel
  induction fuel with
  | zero =>
      intro i d e h
      exact absurd h (by simp [triggerLoop])
  | succ f ih =>
      intro i d e h
      simp only [triggerLoop] at h ⊢
      cases hbi : bindings[i]? with
      | none =>
          simp only [hbi] at h ⊢
      | some bi =>
          simp only [hbi] at h ⊢
          cases hap : applyB obs bi d with
          | none => simp only [hap] at h; exact absurd h (by simp)
          | some rr =>
              cases rr with
              | error e' => simp only [hap] at h; exact absurd h (by simp)
              | ok p =>
                  obtain ⟨d', nn⟩ := p
                  simp only [hap] at h
                  have hbimem : bi ∈ bindings := by
                    have := List.getElem?_eq_some.mp hbi
                    obtain ⟨hlt, hget⟩ := this
                    exact hget ▸ List.getElem_mem _
                  have hcs : ∀ b' ∈ bindings, CompatPair bi b' :=
                    fun b' hb' => hcompat bi hbimem b' hb'
                  have hstE := triggerLoop_preserves_stable hcs f (nn + 1)
                    d' e nn h (applyB_idem d d' nn hap)
                  simp only [hstE]
                  exact ih (nn + 1) d' e h

/-- Claim C9: for a bound path whose observable values have not changed,
running resolution twice leaves exactly the DOM of running it once —
`triggerBindingUpdate` is idempotent, because each pass re-evaluates the
stored original template strings, never the text nodes' current content.
`RecordsCompat` is the registry wellformedness discovery guarantees:
records of one path sharing an owner element id and text-node index share
the stored template text (they were created from the same `nodeValue`). -/
theorem c9_resolution_idempotent {obs : List (String × String)}
    {tb : List (String × List TextBindingInfo)} {path : String}
    {fuel : Nat} {dom dom' : Dom} {binds : List TextBindingInfo}
    (hlook : lookupA path tb = some binds)
    (hcompat : RecordsCompat binds)
    (hrun : triggerBindingUpdate obs tb path fuel dom = .ok dom') :
    triggerBindingUpdate obs tb path fuel dom' = .ok dom' := by
  unfold triggerBindingUpdate at hrun ⊢
  rw [hlook] at hrun ⊢
  exact triggerLoop_idem hcompat fuel 0 dom dom' hrun

/-- Witness for `c9_resolution_idempotent`: one record for path `a`; the
first pass turned `old` into `NEW`; the second pass maps the resolved DOM
to itself. -/
theorem c9_resolution_idempotent_witness :
    triggerBindingUpdate [("a", "NEW")] [("a", [⟨0, 0, "a", "{{a}}"⟩])] "a" 5
      (.elemCons "div" "BindingElement0" [] (.textCons "NEW" .nil) .nil)
      = .ok (.elemCons "div" "BindingElement0" [] (.textCons "NEW" .nil) .nil) :=
  c9_resolution_idempotent rfl
    (by
      intro b hb b' hb' _ _
      rw [List.mem_singleton] at hb hb'
      rw [hb, hb'])
    (show triggerBindingUpdate [("a", "NEW")] [("a", [⟨0, 0, "a", "{{a}}"⟩])]
        "a" 5 (.elemCons "div" "BindingElement0" [] (.textCons "old" .nil)
          .nil)
      = .ok (.elemCons "div" "BindingElement0" [] (.textCons "NEW" .nil)
          .nil) from rfl)

end UiExp
